import Mathlib

/-!
# phoenician: query-constraint builder, suggesters and interactive session

A shallow embedding of `api.go`, `means.go`, `sounds.go`, `spell.go`,
`relates.go` and the session part of `main.go`.

Conventions of the embedding:

* Go `string` is `String`; the builtin `len` of a string is its UTF-8 byte
  length.
* Go `int` is `Int` (no arithmetic is done on it, so the width plays no role).
* A pointer-receiver method that returns `error` becomes a function returning
  the receiver after the call together with `Option Error` (`none` is `nil`).
* The HTTP round trip of `APIProperties.Complete` (URL encoding, `http.Get`,
  JSON decoding) and `strings.ToLower` are parameters, bundled in `Env`;
  every function that can reach `Complete` also returns the list of parameter
  maps handed to the transport, in call order.
* The two widgets of `github.com/charmbracelet/bubbles` are outside the
  repository: the text input is an abstract parameter (`textinput`), the list
  is modelled after the library (`list.Model`).
-/

namespace Phoenician

/-! ## api.go -/

/-- The error values of the program: the five sentinels of `api.go`, the
formatted error of `relatesCommand.suggest`, and any error coming back from
the transport or the JSON decoder. -/
inductive Error where
  | ErrTooManyResults
  | ErrRelationRequired
  | ErrWordRequired
  | ErrBadURL
  | ErrTooManyTopics
  | invalidRelationCode (code : String)
  | external (msg : String)
  deriving DecidableEq, Repr

/-- Go `type SearchConstraint int`. -/
abbrev SearchConstraint := Int

def MeansLike : SearchConstraint := 0
def SoundsLike : SearchConstraint := 1
def SpellsLike : SearchConstraint := 2
def RelatesLike : SearchConstraint := 3

/-- Go `type RelationConstraint int`. -/
abbrev RelationConstraint := Int

def NounByAdjective : RelationConstraint := 0
def AdjectiveByNoun : RelationConstraint := 1
def Synonyms : RelationConstraint := 2
def Trigger : RelationConstraint := 3
def Antonyms : RelationConstraint := 4
def KindOf : RelationConstraint := 5
def Comprises : RelationConstraint := 6
def PartOf : RelationConstraint := 7
def FrequentFollowers : RelationConstraint := 8
def FrequentPredecessors : RelationConstraint := 9
def Homophones : RelationConstraint := 10
def Consonant : RelationConstraint := 11
def None : RelationConstraint := 12

/-- Go `func (r RelationConstraint) Code() string`. -/
def RelationConstraint.Code (r : RelationConstraint) : String :=
  if r = NounByAdjective then "jja"
  else if r = AdjectiveByNoun then "jjb"
  else if r = Synonyms then "syn"
  else if r = Trigger then "trg"
  else if r = Antonyms then "ant"
  else if r = KindOf then "spc"
  else if r = Comprises then "com"
  else if r = PartOf then "par"
  else if r = FrequentFollowers then "bga"
  else if r = FrequentPredecessors then "bgb"
  else if r = Homophones then "hom"
  else if r = Consonant then "cns"
  else "none"

/-- Go `func RelationFromCode(code string) RelationConstraint`. -/
def RelationFromCode (code : String) : RelationConstraint :=
  if code = "jja" then NounByAdjective
  else if code = "jjb" then AdjectiveByNoun
  else if code = "syn" then Synonyms
  else if code = "trg" then Trigger
  else if code = "ant" then Antonyms
  else if code = "spc" then KindOf
  else if code = "com" then Comprises
  else if code = "par" then PartOf
  else if code = "bga" then FrequentFollowers
  else if code = "bgb" then FrequentPredecessors
  else if code = "hom" then Homophones
  else if code = "cns" then Consonant
  else None

/-- Go `type WordsResponse struct`. -/
structure WordsResponse where
  Word : String
  Score : Int
  deriving DecidableEq, Repr

/-- Go `type APIProperties struct`. -/
structure APIProperties where
  baseURL : String
  constraint : String
  query : String
  maxResults : Int
  topics : List String
  deriving DecidableEq, Repr

/-- Go `func API() *APIProperties`. -/
def API : APIProperties :=
  { baseURL := "https://api.datamuse.com/words"
    constraint := "sp"
    query := ""
    maxResults := 12
    topics := [] }

/-- Go `func (api *APIProperties) Query(query string) *APIProperties`. -/
def APIProperties.Query (api : APIProperties) (query : String) : APIProperties :=
  { api with query := query }

/-- Go `func (api *APIProperties) Constrain(constraint, relation) error`: the
builder after the call and the returned error. A constraint that is none of
the four constants matches no case of the switch. -/
def APIProperties.Constrain (api : APIProperties) (constraint : SearchConstraint)
    (relation : RelationConstraint) : APIProperties × Option Error :=
  if constraint = MeansLike then ({ api with constraint := "ml" }, none)
  else if constraint = SoundsLike then ({ api with constraint := "sl" }, none)
  else if constraint = SpellsLike then ({ api with constraint := "sp" }, none)
  else if constraint = RelatesLike then
    if relation = None then (api, some Error.ErrRelationRequired)
    else ({ api with constraint := "rel_" ++ relation.Code }, none)
  else (api, none)

/-- Go `func (api *APIProperties) Limit(max int) error`. -/
def APIProperties.Limit (api : APIProperties) (max : Int) : APIProperties × Option Error :=
  if max < 1 ∨ max > 1000 then (api, some Error.ErrTooManyResults)
  else ({ api with maxResults := max }, none)

/-- Go `func (api *APIProperties) RelateToTopics(topics []string) error`. -/
def APIProperties.RelateToTopics (api : APIProperties) (topics : List String) :
    APIProperties × Option Error :=
  if topics.length > 1000 then (api, some Error.ErrTooManyTopics)
  else ({ api with topics := topics }, none)

/-- Go `url.Values` restricted to its use here (`Set` of distinct keys, one
value per key): an association list in insertion order. -/
abbrev Values := List (String × String)

/-- Go `url.Values.Set`: replaces the value of `key`. -/
def Values.Set (v : Values) (key value : String) : Values :=
  v.filter (fun p => p.1 ≠ key) ++ [(key, value)]

/-- Go `url.Values.Get` (with `none` for an absent key). -/
def Values.Get (v : Values) (key : String) : Option String :=
  (v.find? (fun p => p.1 = key)).map (fun p => p.2)

/-- Go `strconv.Itoa`. -/
def Itoa (n : Int) : String := toString n

/-- Go `strings.Join`. -/
def Join (elems : List String) (sep : String) : String := sep.intercalate elems

/-- The builtin `len` on a string: the number of bytes. -/
def len (s : String) : Nat := s.utf8ByteSize

/-- What the program takes from outside: `strings.ToLower`, and the round
trip `http.Get` of the encoded parameters followed by JSON decoding. -/
structure Env where
  ToLower : String → String
  Get : Values → Except Error (List WordsResponse)

/-- The result of a call that may reach the transport: the Go return values
and the parameter maps handed to the transport during the call. -/
structure Outcome where
  result : Except Error (List WordsResponse)
  calls : List Values

/-- The parameter map built by `Complete`. -/
def APIProperties.params (api : APIProperties) (query : String) : Values :=
  let params : Values := []
  let params := params.Set api.constraint query
  let params := params.Set "max" (Itoa api.maxResults)
  if api.topics.length > 0 then params.Set "topics" (Join api.topics ",") else params

/-- Go `func (api *APIProperties) Complete(query string) ([]WordsResponse, error)`.
`url.Parse` of the base URL is taken to succeed: `baseURL` is unexported, has
no setter, and is the constant of `API()`. -/
def APIProperties.Complete (env : Env) (api : APIProperties) (query : String) : Outcome :=
  let params := api.params query
  { result := env.Get params, calls := [params] }

/-- Comma-joining in the words of the specification: the topics in order, a
comma between any two neighbours, nothing before the first or after the
last. -/
def commaJoined : List String → String
  | [] => ""
  | [topic] => topic
  | topic :: next :: rest => topic ++ "," ++ commaJoined (next :: rest)

/-- The request parameters in the words of the specification: the key of the
mode mapped to the query, `max` mapped to the decimal limit, and `topics`
mapped to the comma-joined topics when there is at least one topic. -/
def encode (key query : String) (limit : Int) (topics : List String) : Values :=
  [(key, query), ("max", Itoa limit)] ++
    (if topics = [] then [] else [("topics", commaJoined topics)])

/-! ## means.go, sounds.go, spell.go, relates.go -/

/-- Go `unicode.IsSpace`: the Latin-1 cases of its switch and the
`White_Space` table above Latin-1. -/
def IsSpace (r : Char) : Bool :=
  let n := r.toNat
  (0x09 ≤ n && n ≤ 0x0D) || n == 0x20 || n == 0x85 || n == 0xA0 || n == 0x1680 ||
  (0x2000 ≤ n && n ≤ 0x200A) || n == 0x2028 || n == 0x2029 || n == 0x202F ||
  n == 0x205F || n == 0x3000

/-- Go `strings.TrimSpace`: leading and trailing white space removed. -/
def TrimSpace (s : String) : String :=
  String.mk ((s.data.dropWhile IsSpace).rdropWhile IsSpace)

/-- Go `strings.Split` with a one-character separator. -/
def Split (s : String) (sep : Char) : List String :=
  (s.data.splitOn sep).map String.mk

/-- Go `func parseTopics(topicsStr string) []string`. -/
def parseTopics (topicsStr : String) : List String :=
  if topicsStr = "" then []
  else ((Split topicsStr ',').map TrimSpace).filter (fun topic => topic ≠ "")

/-- Go `type meansCommand struct`. -/
structure meansCommand where
  max : Int
  topics : String
  deriving DecidableEq, Repr

/-- Go `type soundsCommand struct`. -/
structure soundsCommand where
  max : Int
  topics : String
  deriving DecidableEq, Repr

/-- Go `type spellCommand struct`. -/
structure spellCommand where
  max : Int
  topics : String
  deriving DecidableEq, Repr

/-- Go `type relatesCommand struct`. -/
structure relatesCommand where
  relation : String
  max : Int
  topics : String
  deriving DecidableEq, Repr

/-- A return `nil, err` before `Complete` is reached. -/
def Outcome.fail (err : Error) : Outcome := { result := .error err, calls := [] }

/-- Go `func (m *meansCommand) suggest(query string) ([]WordsResponse, error)`. -/
def meansCommand.suggest (env : Env) (m : meansCommand) (query : String) : Outcome :=
  if len query < 3 then { result := .ok [], calls := [] }
  else
    let api := API
    match api.Constrain MeansLike None with
    | (_, some err) => Outcome.fail err
    | (api, none) =>
      match api.Limit m.max with
      | (_, some err) => Outcome.fail err
      | (api, none) =>
        match api.RelateToTopics (parseTopics m.topics) with
        | (_, some err) => Outcome.fail err
        | (api, none) => api.Complete env (env.ToLower query)

/-- Go `func (s *soundsCommand) suggest(query string) ([]WordsResponse, error)`. -/
def soundsCommand.suggest (env : Env) (s : soundsCommand) (query : String) : Outcome :=
  if len query < 3 then { result := .ok [], calls := [] }
  else
    let api := API
    match api.Constrain SoundsLike None with
    | (_, some err) => Outcome.fail err
    | (api, none) =>
      match api.Limit s.max with
      | (_, some err) => Outcome.fail err
      | (api, none) =>
        match api.RelateToTopics (parseTopics s.topics) with
        | (_, some err) => Outcome.fail err
        | (api, none) => api.Complete env (env.ToLower query)

/-- Go `func (s *spellCommand) suggest(query string) ([]WordsResponse, error)`. -/
def spellCommand.suggest (env : Env) (s : spellCommand) (query : String) : Outcome :=
  if len query < 3 then { result := .ok [], calls := [] }
  else
    let api := API
    match api.Constrain SpellsLike None with
    | (_, some err) => Outcome.fail err
    | (api, none) =>
      match api.Limit s.max with
      | (_, some err) => Outcome.fail err
      | (api, none) =>
        match api.RelateToTopics (parseTopics s.topics) with
        | (_, some err) => Outcome.fail err
        | (api, none) => api.Complete env (env.ToLower query)

/-- Go `func (r *relatesCommand) suggest(query string) ([]WordsResponse, error)`. -/
def relatesCommand.suggest (env : Env) (r : relatesCommand) (query : String) : Outcome :=
  if len query < 3 then { result := .ok [], calls := [] }
  else
    let relation := RelationFromCode r.relation
    if relation = None then Outcome.fail (Error.invalidRelationCode r.relation)
    else
      let api := API
      match api.Constrain RelatesLike relation with
      | (_, some err) => Outcome.fail err
      | (api, none) =>
        match api.Limit r.max with
        | (_, some err) => Outcome.fail err
        | (api, none) =>
          match api.RelateToTopics (parseTopics r.topics) with
          | (_, some err) => Outcome.fail err
          | (api, none) => api.Complete env (env.ToLower query)

/-- An environment for evaluating examples: ASCII lower-casing and a
transport that answers every request with the empty list. -/
def quietEnv : Env :=
  { ToLower := fun s => String.mk (s.data.map Char.toLower)
    Get := fun _ => .ok [] }

/-- A topics flag with 1001 topics: `a,a,...,a,`. -/
def manyTopics : String := String.mk (List.replicate 1001 ['a', ',']).flatten

/-! ## The list widget (`github.com/charmbracelet/bubbles`, packages
`paginator` and `list`)

The widget is not part of the repository. It is modelled after the library
for the calls `main.go` makes: `SetItems`, `Items`, `SelectedItem`, `SetWidth`
and `Update` on the keys `up` and `down`, with filtering disabled. Integers
are Go `int`; `/` and `%` of Go are `Int.tdiv` and `Int.tmod`. -/

/-- Library type `paginator.Model`: the fields the list uses. -/
structure paginator.Model where
  Page : Int
  PerPage : Int
  TotalPages : Int
  deriving DecidableEq, Repr

/-- Go `func (m *Model) SetTotalPages(items int) int`, the model after the call. -/
def paginator.Model.SetTotalPages (m : paginator.Model) (items : Int) : paginator.Model :=
  if items < 1 then m
  else
    let n := items.tdiv m.PerPage
    let n := if items.tmod m.PerPage > 0 then n + 1 else n
    { m with TotalPages := n }

/-- Go `func (m *Model) GetSliceBounds(length int) (start int, end int)`. -/
def paginator.Model.GetSliceBounds (m : paginator.Model) (length : Int) : Int × Int :=
  (m.Page * m.PerPage, min (m.Page * m.PerPage + m.PerPage) length)

/-- Go `func (m Model) ItemsOnPage(totalItems int) int`. -/
def paginator.Model.ItemsOnPage (m : paginator.Model) (totalItems : Int) : Int :=
  if totalItems < 1 then 0
  else (m.GetSliceBounds totalItems).2 - (m.GetSliceBounds totalItems).1

/-- Go `func (m Model) OnLastPage() bool`. -/
def paginator.Model.OnLastPage (m : paginator.Model) : Bool :=
  m.Page == m.TotalPages - 1

/-- Go `func (m *Model) PrevPage()`. -/
def paginator.Model.PrevPage (m : paginator.Model) : paginator.Model :=
  if m.Page > 0 then { m with Page := m.Page - 1 } else m

/-- Go `func (m *Model) NextPage()`. -/
def paginator.Model.NextPage (m : paginator.Model) : paginator.Model :=
  if !m.OnLastPage then { m with Page := m.Page + 1 } else m

/-- Go `type wordItem struct` of `main.go`, the only `list.Item` the program
puts into the list. -/
structure wordItem where
  word : String
  score : Int
  deriving DecidableEq, Repr

/-- Library type `list.Model`: items, cursor within the page, paginator, width and the
`InfiniteScrolling` switch. The filter state is always `Unfiltered`
(`SetFilteringEnabled(false)`), so the visible items are the items. -/
structure list.Model where
  items : List wordItem
  cursor : Int
  Paginator : paginator.Model
  width : Int
  InfiniteScrolling : Bool
  deriving DecidableEq, Repr

/-- Go `func (m Model) Items() []Item`. -/
def list.Model.Items (m : list.Model) : List wordItem := m.items

/-- Go `func (m Model) VisibleItems() []Item` in the unfiltered state. -/
def list.Model.VisibleItems (m : list.Model) : List wordItem := m.items

/-- Go `func (m Model) Index() int`. -/
def list.Model.Index (m : list.Model) : Int :=
  m.Paginator.Page * m.Paginator.PerPage + m.cursor

/-- Go `func (m Model) SelectedItem() Item`; `none` is the nil item. -/
def list.Model.SelectedItem (m : list.Model) : Option wordItem :=
  let i := m.Index
  let items := m.VisibleItems
  if i < 0 ∨ items.length = 0 ∨ (items.length : Int) ≤ i then none
  else items.get? i.toNat

/-- Go `func (m *Model) updatePagination()`. The number of items per page is
computed by the library from the height of the list and of its parts, which
the program never changes after `initialModel`; it is kept as it is. -/
def list.Model.updatePagination (m : list.Model) : list.Model :=
  let index := m.Index
  let pages : Int := m.VisibleItems.length
  let pg₁ := if pages < 1 then m.Paginator.SetTotalPages 1 else m.Paginator.SetTotalPages pages
  let page := index.tdiv pg₁.PerPage
  let cursor := index.tmod pg₁.PerPage
  let page := if page ≥ pg₁.TotalPages - 1 then max 0 (pg₁.TotalPages - 1) else page
  { m with cursor := cursor, Paginator := { pg₁ with Page := page } }

/-- Go `func (m *Model) SetItems(i []Item) tea.Cmd`, the model after the call. -/
def list.Model.SetItems (m : list.Model) (i : List wordItem) : list.Model :=
  { m with items := i }.updatePagination

/-- Go `func (m *Model) SetWidth(v int)`. -/
def list.Model.SetWidth (m : list.Model) (v : Int) : list.Model :=
  { m with width := v }.updatePagination

/-- Go `func (m *Model) CursorUp()`. -/
def list.Model.CursorUp (m : list.Model) : list.Model :=
  let m := { m with cursor := m.cursor - 1 }
  if m.cursor < 0 ∧ m.Paginator.Page = 0 then
    if m.InfiniteScrolling then
      let m := { m with Paginator := { m.Paginator with Page := m.Paginator.TotalPages - 1 } }
      { m with cursor := m.Paginator.ItemsOnPage m.VisibleItems.length - 1 }
    else { m with cursor := 0 }
  else if m.cursor ≥ 0 then m
  else
    let m := { m with Paginator := m.Paginator.PrevPage }
    { m with cursor := m.Paginator.ItemsOnPage m.VisibleItems.length - 1 }

/-- Go `func (m *Model) CursorDown()`. -/
def list.Model.CursorDown (m : list.Model) : list.Model :=
  let itemsOnPage := m.Paginator.ItemsOnPage m.VisibleItems.length
  let m := { m with cursor := m.cursor + 1 }
  if m.cursor < itemsOnPage then m
  else if !m.Paginator.OnLastPage then
    { m with Paginator := m.Paginator.NextPage, cursor := 0 }
  else if m.cursor > itemsOnPage then { m with cursor := 0 }
  else if m.InfiniteScrolling then
    { m with Paginator := { m.Paginator with Page := 0 }, cursor := 0 }
  else { m with cursor := itemsOnPage - 1 }

/-- Well-formedness of a list with at least one item: a positive page size,
a page count that matches the number of items, the current page among the
pages, and the cursor on an item of the current page. It implies that the
list is not empty. -/
def list.Model.wf (l : list.Model) : Prop :=
  1 ≤ l.Paginator.PerPage ∧
  0 ≤ l.Paginator.Page ∧ l.Paginator.Page < l.Paginator.TotalPages ∧
  (l.Paginator.TotalPages - 1) * l.Paginator.PerPage < l.items.length ∧
  (l.items.length : Int) ≤ l.Paginator.TotalPages * l.Paginator.PerPage ∧
  0 ≤ l.cursor ∧ l.cursor < l.Paginator.ItemsOnPage l.items.length

instance list.Model.decidableWf (l : list.Model) : Decidable l.wf := by
  unfold list.Model.wf
  exact inferInstance

/-- The keys of `tea.KeyMsg` as `key.Matches` tells them apart with the
bindings of `keys`: `ctrl+c`, `enter`, `tab`, `up`, `down`, and every other
key (printable characters, backspace, ...), named by its `String()`. -/
inductive KeyMsg where
  | ctrlC
  | enter
  | tab
  | up
  | down
  | other (key : String)
  deriving DecidableEq, Repr

/-- The last step of `handleBrowsing` ("Keep the index in bounds when
paginating"). -/
def list.Model.keepInBounds (m : list.Model) : list.Model :=
  let itemsOnPage := m.Paginator.ItemsOnPage m.VisibleItems.length
  if m.cursor > itemsOnPage - 1 then { m with cursor := max 0 (itemsOnPage - 1) } else m

/-- The key switch of `handleBrowsing` for the keys the program forwards:
`up` and `down` are bound to `CursorUp` and `CursorDown`, and
`updateKeybindings` enables them while the list has items. -/
def list.Model.handleKey (m : list.Model) (msg : KeyMsg) : list.Model :=
  match msg with
  | .up => if m.items.length ≠ 0 then m.CursorUp else m
  | .down => if m.items.length ≠ 0 then m.CursorDown else m
  | _ => m

/-- Go `func (m Model) Update(msg tea.Msg) (Model, tea.Cmd)` of the list on a key
message, the model after the call: with filtering off this is
`handleBrowsing`, the key switch followed by the bounds step. -/
def list.Model.Update (m : list.Model) (msg : KeyMsg) : list.Model :=
  (m.handleKey msg).keepInBounds

/-- The call `list.New(items, delegate, 60, 20)` of `initialModel` with no items,
followed by `InfiniteScrolling = true`. `perPage` is the number of items per
page the library computes for height 20. -/
def list.New (perPage : Int) : list.Model :=
  { items := []
    cursor := 0
    Paginator := { Page := 0, PerPage := perPage, TotalPages := 1 }
    width := 60
    InfiniteScrolling := true }

/-! ## main.go -/

/-- The text input widget (`bubbles/textinput`) as the program uses it, over
an arbitrary widget state `TI`: the configured widget of `initialModel`,
`Value`, `SetValue`, and `Update` on a key message. Nothing is assumed about
how the widget edits its text. -/
structure textinput (TI : Type) where
  New : TI
  Value : TI → String
  SetValue : TI → String → TI
  Update : TI → KeyMsg → TI

/-- The messages `model.Update` tells apart; `other` is any message with no
case in the type switch. -/
inductive Msg where
  | KeyMsg (key : KeyMsg)
  | suggestionResponse (words : List WordsResponse)
  | WindowSizeMsg (Width Height : Int)
  | other
  deriving DecidableEq, Repr

/-- The commands `model.Update` returns: `tea.Quit`, the closure of
`getSuggestions` for a query, and a command handed back by a widget. -/
inductive Cmd where
  | Quit
  | getSuggestions (query : String)
  | widget
  deriving DecidableEq, Repr

/-- Go `type wordSuggester interface`: the Go results of `suggest`. -/
abbrev wordSuggester := String → Except Error (List WordsResponse)

/-- Go `type model struct` (the fields `help` and `keys` only serve rendering and
key matching). -/
structure model (TI : Type) where
  title : String
  description : String
  textInput : TI
  suggestionsList : list.Model
  suggester : wordSuggester
  finalResults : List WordsResponse
  showResults : Bool
  showSuggestions : Bool
  quitting : Bool

/-- Go `func initialModel(title, description string, suggester wordSuggester) model`. -/
def initialModel {TI : Type} (ti : textinput TI) (perPage : Int) (title description : String)
    (suggester : wordSuggester) : model TI :=
  { title := title
    description := description
    textInput := ti.New
    suggestionsList := list.New perPage
    suggester := suggester
    finalResults := []
    showResults := false
    showSuggestions := false
    quitting := false }

/-- Go `func (m model) getSuggestions(query string) tea.Cmd`: the message the
returned closure produces when it is run. -/
def model.getSuggestions {TI : Type} (m : model TI) (query : String) : Msg :=
  match m.suggester query with
  | .error _ => Msg.suggestionResponse []
  | .ok words => Msg.suggestionResponse words

/-- Running a command returned by `Update` of `m`: the message it sends back
to the session, if any. -/
def Cmd.run {TI : Type} (m : model TI) : Cmd → Option Msg
  | .getSuggestions query => some (m.getSuggestions query)
  | _ => none

/-- What a call of `model.Update` yields: the returned model, the batch of
returned commands, and the queries passed to `m.suggester.suggest` during the
call itself. -/
structure UpdateResult (TI : Type) where
  m : model TI
  cmds : List Cmd
  calls : List String

/-- Lines 195 to 206 and 220 of `model.Update`: the key goes to the text
input, then suggestions are requested or cleared. -/
def model.updateTextInput {TI : Type} (ti : textinput TI) (m : model TI) (msg : KeyMsg) :
    UpdateResult TI :=
  let m := { m with textInput := ti.Update m.textInput msg }
  let query := TrimSpace (ti.Value m.textInput)
  if len query ≥ 3 then
    { m := m, cmds := [Cmd.widget, Cmd.getSuggestions query], calls := [] }
  else
    { m := { m with showSuggestions := false, suggestionsList := m.suggestionsList.SetItems [] }
      cmds := [Cmd.widget]
      calls := [] }

/-- Go `func (m model) Update(msg tea.Msg) (tea.Model, tea.Cmd)`. -/
def model.Update {TI : Type} (ti : textinput TI) (m : model TI) (msg : Msg) : UpdateResult TI :=
  match msg with
  | .KeyMsg .ctrlC => { m := { m with quitting := true }, cmds := [Cmd.Quit], calls := [] }
  | .KeyMsg .enter =>
    let m :=
      if m.showSuggestions ∧ m.suggestionsList.Items.length > 0 then
        match m.suggestionsList.SelectedItem with
        | some selected => { m with textInput := ti.SetValue m.textInput selected.word }
        | none => m
      else m
    let query := TrimSpace (ti.Value m.textInput)
    if query ≠ "" then
      match m.suggester query with
      | .ok results =>
        { m := { m with finalResults := results, showResults := true, showSuggestions := false }
          cmds := []
          calls := [query] }
      | .error _ => { m := m, cmds := [], calls := [query] }
    else { m := m, cmds := [], calls := [] }
  | .KeyMsg .tab =>
    if m.showSuggestions ∧ m.suggestionsList.Items.length > 0 then
      match m.suggestionsList.SelectedItem with
      | some selected =>
        { m := { m with textInput := ti.SetValue m.textInput selected.word }
          cmds := [Cmd.getSuggestions selected.word]
          calls := [] }
      | none => m.updateTextInput ti .tab
    else m.updateTextInput ti .tab
  | .KeyMsg .up =>
    if m.showSuggestions then
      { m := { m with suggestionsList := m.suggestionsList.Update .up }
        cmds := [Cmd.widget]
        calls := [] }
    else m.updateTextInput ti .up
  | .KeyMsg .down =>
    if m.showSuggestions then
      { m := { m with suggestionsList := m.suggestionsList.Update .down }
        cmds := [Cmd.widget]
        calls := [] }
    else m.updateTextInput ti .down
  | .KeyMsg (.other key) => m.updateTextInput ti (.other key)
  | .suggestionResponse words =>
    let items := words.map (fun word => ({ word := word.Word, score := word.Score } : wordItem))
    { m := { m with suggestionsList := m.suggestionsList.SetItems items
                    showSuggestions := decide (items.length > 0) }
      cmds := []
      calls := [] }
  | .WindowSizeMsg Width _ =>
    { m := { m with suggestionsList := m.suggestionsList.SetWidth (Width - 4) }
      cmds := []
      calls := [] }
  | .other => { m := m, cmds := [], calls := [] }

/-- How a command ends its `RunE`: with an error returned before the
interactive program exists, or inside `runApp`, where `tea.NewProgram` is
started on a model. -/
inductive RunOutcome (TI : Type) where
  | failed (err : Error)
  | entered (m : model TI)

/-- Go `func runApp(title, description string, suggester wordSuggester) error`:
the program is created on `initialModel` and run. -/
def runApp {TI : Type} (ti : textinput TI) (perPage : Int) (title description : String)
    (suggester : wordSuggester) : RunOutcome TI :=
  RunOutcome.entered (initialModel ti perPage title description suggester)

/-- Go `func getRelationDescription(relationCode string) string`. -/
def getRelationDescription (relationCode : String) : String :=
  let relation := RelationFromCode relationCode
  if relation = NounByAdjective then "Popular nouns modified by adjective (gradual → increase)"
  else if relation = AdjectiveByNoun then "Popular adjectives for noun (beach → sandy)"
  else if relation = Synonyms then "Synonyms (ocean → sea)"
  else if relation = Trigger then "Trigger words (cow → milking)"
  else if relation = Antonyms then "Antonyms (late → early)"
  else if relation = KindOf then "Kind of / hypernyms (gondola → boat)"
  else if relation = Comprises then "Comprises / holonyms (car → accelerator)"
  else if relation = PartOf then "Part of / meronyms (trunk → tree)"
  else if relation = FrequentFollowers then "Frequent followers (wreak → havoc)"
  else if relation = FrequentPredecessors then "Frequent predecessors (havoc → wreak)"
  else if relation = Homophones then "Homophones (course → coarse)"
  else if relation = Consonant then "Consonant match (sample → simple)"
  else "Unknown relation"

/-- The function `RunE` of `newMeansCommand` for the flag values `maxResults`, `topics`. -/
def newMeansCommand.RunE {TI : Type} (env : Env) (ti : textinput TI) (perPage : Int)
    (maxResults : Int) (topics : String) : RunOutcome TI :=
  let suggester : meansCommand := { max := maxResults, topics := topics }
  runApp ti perPage "Phoenician" "Start typing to get words that mean like the input"
    (fun query => (suggester.suggest env query).result)

/-- The function `RunE` of `newSoundsCommand`. -/
def newSoundsCommand.RunE {TI : Type} (env : Env) (ti : textinput TI) (perPage : Int)
    (maxResults : Int) (topics : String) : RunOutcome TI :=
  let suggester : soundsCommand := { max := maxResults, topics := topics }
  runApp ti perPage "Phoenician" "Start typing to get words that sound like the input"
    (fun query => (suggester.suggest env query).result)

/-- The function `RunE` of `newSpellCommand`. -/
def newSpellCommand.RunE {TI : Type} (env : Env) (ti : textinput TI) (perPage : Int)
    (maxResults : Int) (topics : String) : RunOutcome TI :=
  let suggester : spellCommand := { max := maxResults, topics := topics }
  runApp ti perPage "Phoenician" "Start typing to get words that are spelled like the input"
    (fun query => (suggester.suggest env query).result)

/-- The function `RunE` of `newRelatesCommand` for the one positional argument and the
flag values. -/
def newRelatesCommand.RunE {TI : Type} (env : Env) (ti : textinput TI) (perPage : Int)
    (relationCode : String) (maxResults : Int) (topics : String) : RunOutcome TI :=
  let suggester : relatesCommand :=
    { relation := relationCode, max := maxResults, topics := topics }
  let description :=
    "Start typing to get words that are related by '" ++ getRelationDescription relationCode ++ "'"
  runApp ti perPage "Phoenician" description (fun query => (suggester.suggest env query).result)

/-- A text input for evaluating examples: the state is the text, a printable
key appends its characters at the end, `backspace` removes the last
character, every other key leaves the text as it is. -/
def lineInput : textinput String :=
  { New := ""
    Value := fun t => t
    SetValue := fun _ s => s
    Update := fun t msg =>
      match msg with
      | .other key => if key = "backspace" then String.mk t.data.dropLast else t ++ key
      | _ => t }

/-- The session after a sequence of messages, each handled by `Update`. -/
def model.run {TI : Type} (ti : textinput TI) (m : model TI) (msgs : List Msg) : model TI :=
  msgs.foldl (fun m msg => (m.Update ti msg).m) m

/-- The list item `Update` builds from a response word. -/
def wordItem.ofResponse (word : WordsResponse) : wordItem :=
  { word := word.Word, score := word.Score }

/-- A suggester for evaluating examples: nothing below three bytes, otherwise
the query itself with score 1. -/
def echoSuggester : wordSuggester :=
  fun query => if len query < 3 then .ok [] else .ok [{ Word := query, Score := 1 }]

/-- Example session: `initialModel` with six items per page, after the keys
`o`, `c`, `e`. -/
def sessionOce : model String :=
  (initialModel lineInput 6 "Phoenician" "" echoSuggester).run lineInput
    [.KeyMsg (.other "o"), .KeyMsg (.other "c"), .KeyMsg (.other "e")]

/-- Example session: `sessionOce` after the key `a` and after the response to
the request issued for `"ocea"` has arrived. -/
def sessionOcea : model String :=
  let m := (sessionOce.Update lineInput (.KeyMsg (.other "a"))).m
  (m.Update lineInput (m.getSuggestions "ocea")).m

/-- Example session: `initialModel` after a response with two words. -/
def sessionTwoWords : model String :=
  ((initialModel lineInput 6 "Phoenician" "" echoSuggester).Update lineInput
    (.suggestionResponse [{ Word := "sea", Score := 2 }, { Word := "seal", Score := 1 }])).m

/-- Lines 162 to 166 of `model.Update`, the first step of the `enter` case:
while suggestions are shown and an item is selected, the text input takes the
word of that item. -/
def model.acceptSelection {TI : Type} (ti : textinput TI) (m : model TI) : model TI :=
  if m.showSuggestions ∧ m.suggestionsList.Items.length > 0 then
    match m.suggestionsList.SelectedItem with
    | some selected => { m with textInput := ti.SetValue m.textInput selected.word }
    | none => m
  else m

/-- The response word a list item was built from. -/
def wordItem.toResponse (item : wordItem) : WordsResponse :=
  { Word := item.word, Score := item.score }

/-- The topic list in the words of the specification: the comma-separated
pieces, each trimmed, without the pieces that are empty after trimming. -/
def normalizedTopics (t : String) : List String :=
  ((Split t ',').map TrimSpace).filter (fun piece => piece ≠ "")

/-- Example session: two suggestions shown, the second one selected. -/
def sessionSecondSelected : model String :=
  (sessionTwoWords.Update lineInput (.KeyMsg .down)).m

/-- Example session: `sessionOce` after `backspace`; the input is `oc`. -/
def sessionOc : model String :=
  (sessionOce.Update lineInput (.KeyMsg (.other "backspace"))).m

/-- Example session: `initialModel` after the keys `a`, `b`. -/
def sessionAb : model String :=
  (initialModel lineInput 6 "Phoenician" "" echoSuggester).run lineInput
    [.KeyMsg (.other "a"), .KeyMsg (.other "b")]

/-- Consistency of the paginator with the items, without a bound that ties
the cursor to the items: a positive page size, a page count that matches the
number of items (one page for no item), the current page among the pages, and
a cursor within the page size. Every list the program can reach has it. -/
def list.Model.paged (l : list.Model) : Prop :=
  1 ≤ l.Paginator.PerPage ∧
  0 ≤ l.Paginator.Page ∧ l.Paginator.Page < l.Paginator.TotalPages ∧
  (l.Paginator.TotalPages - 1) * l.Paginator.PerPage < max (l.items.length : Int) 1 ∧
  max (l.items.length : Int) 1 ≤ l.Paginator.TotalPages * l.Paginator.PerPage ∧
  0 ≤ l.cursor ∧ l.cursor < l.Paginator.PerPage

instance list.Model.decidablePaged (l : list.Model) : Decidable l.paged := by
  unfold list.Model.paged
  exact inferInstance

/-- Well-formedness without the bound on the cursor: the paginator matches
at least one item and the cursor is not negative. -/
def list.Model.fits (l : list.Model) : Prop :=
  1 ≤ l.Paginator.PerPage ∧
  0 ≤ l.Paginator.Page ∧ l.Paginator.Page < l.Paginator.TotalPages ∧
  (l.Paginator.TotalPages - 1) * l.Paginator.PerPage < l.items.length ∧
  (l.items.length : Int) ≤ l.Paginator.TotalPages * l.Paginator.PerPage ∧
  0 ≤ l.cursor

/-- Example session: two suggestions arrive, `down` selects the second one,
then a response with a single word arrives. -/
def sessionShorterResponse : model String :=
  (initialModel lineInput 6 "Phoenician" "" echoSuggester).run lineInput
    [.suggestionResponse [{ Word := "sea", Score := 2 }, { Word := "seal", Score := 1 }],
     .KeyMsg .down,
     .suggestionResponse [{ Word := "tea", Score := 5 }]]

/-- A text input for evaluating examples that honours the `CharLimit = 156`
set in `initialModel`: like `lineInput`, but `SetValue` and typing keep at
most the first 156 characters. -/
def limitedInput : textinput String :=
  { New := ""
    Value := fun t => t
    SetValue := fun _ s => String.mk (s.data.take 156)
    Update := fun t msg =>
      match msg with
      | .other key =>
        if key = "backspace" then String.mk t.data.dropLast
        else String.mk ((t ++ key).data.take 156)
      | _ => t }

/-- A word of 157 letters. -/
def longWord : String := String.mk (List.replicate 157 'a')

/-- Example session: the only suggestion shown, and selected, is `longWord`. -/
def sessionLongWord : model String :=
  ((initialModel limitedInput 6 "Phoenician" "" echoSuggester).Update limitedInput
    (.suggestionResponse [{ Word := longWord, Score := 1 }])).m

/-- Example session: the only suggestion shown, and selected, is ` tea `
with a blank on either side. -/
def sessionPaddedWord : model String :=
  ((initialModel lineInput 6 "Phoenician" "" echoSuggester).Update lineInput
    (.suggestionResponse [{ Word := " tea ", Score := 1 }])).m

/-! ## Theorems: the constraint builder and the suggesters -/

/-- C2. Debounce short-circuit: for each of the four suggesters, every
configuration (out-of-range `max` and unknown relation code included) and
every query whose `len` is below 3, `suggest` returns the empty sequence with
a nil error and hands nothing to the transport: `Complete` is not reached. -/
theorem suggest_short_query (env : Env) (query : String) (h : len query < 3) :
    (∀ c : meansCommand, (c.suggest env query).result = .ok [] ∧ (c.suggest env query).calls = []) ∧
    (∀ c : soundsCommand, (c.suggest env query).result = .ok [] ∧ (c.suggest env query).calls = []) ∧
    (∀ c : spellCommand, (c.suggest env query).result = .ok [] ∧ (c.suggest env query).calls = []) ∧
    (∀ c : relatesCommand, (c.suggest env query).result = .ok [] ∧ (c.suggest env query).calls = []) := by
  refine ⟨fun c => ?_, fun c => ?_, fun c => ?_, fun c => ?_⟩
  · simp [meansCommand.suggest, h]
  · simp [soundsCommand.suggest, h]
  · simp [spellCommand.suggest, h]
  · simp [relatesCommand.suggest, h]

/-- C2 at the query `"ab"`, with `max = 0` and the unknown relation `"xyz"`. -/
theorem suggest_short_query_witness :
    len "ab" < 3 ∧
    ((meansCommand.mk 0 "").suggest quietEnv "ab").calls = [] ∧
    ((relatesCommand.mk "xyz" 0 "").suggest quietEnv "ab").calls = [] :=
  ⟨by decide,
   ((suggest_short_query quietEnv "ab" (by decide)).1 ⟨0, ""⟩).2,
   ((suggest_short_query quietEnv "ab" (by decide)).2.2.2 ⟨"xyz", 0, ""⟩).2⟩

/-- C3. Limit boundary: `Limit(n)` fails, and then with `ErrTooManyResults`,
exactly when `n < 1` or `n > 1000`; a successful call sets `maxResults` to `n`
and changes no other field; a failing call leaves the builder as it was.
`Limit(0)` and `Limit(1001)` fail, `Limit(1)` and `Limit(1000)` succeed. -/
theorem Limit_boundary (api : APIProperties) (n : Int) :
    ((api.Limit n).2 = some Error.ErrTooManyResults ↔ (n < 1 ∨ n > 1000)) ∧
    ((api.Limit n).2 = none ↔ (1 ≤ n ∧ n ≤ 1000)) ∧
    ((api.Limit n).2 = none → (api.Limit n).1 = { api with maxResults := n }) ∧
    ((api.Limit n).2 ≠ none → (api.Limit n).1 = api) ∧
    (api.Limit 0).2 = some Error.ErrTooManyResults ∧
    (api.Limit 1001).2 = some Error.ErrTooManyResults ∧
    (api.Limit 1).2 = none ∧
    (api.Limit 1000).2 = none := by
  refine ⟨?_, ?_, ?_, ?_, ?_, ?_, ?_, ?_⟩
  · by_cases h : n < 1 ∨ n > 1000 <;> simp [APIProperties.Limit, h]
  · by_cases h : n < 1 ∨ n > 1000
    · simp only [APIProperties.Limit, h, if_true]
      constructor
      · intro h'
        cases h'
      · intro h'
        omega
    · simp only [APIProperties.Limit, h, if_false, true_iff]
      omega
  · by_cases h : n < 1 ∨ n > 1000 <;> simp [APIProperties.Limit, h]
  · by_cases h : n < 1 ∨ n > 1000 <;> simp [APIProperties.Limit, h]
  · simp [APIProperties.Limit]
  · simp [APIProperties.Limit]
  · simp [APIProperties.Limit]
  · simp [APIProperties.Limit]

/-- C3 on the builder of `API()` at `n = 1000` and `n = 1001`. -/
theorem Limit_boundary_witness :
    (API.Limit 1000).1 = { API with maxResults := 1000 } ∧ (API.Limit 1001).1 = API :=
  ⟨(Limit_boundary API 1000).2.2.1 (by decide), (Limit_boundary API 1001).2.2.2.1 (by decide)⟩

/-- Each of the 12 codes of the table decodes to a relation that is not `None`
and encodes back to itself. -/
theorem known_code_round_trip (c : String)
    (h : c ∈ ["jja", "jjb", "syn", "trg", "ant", "spc", "com", "par", "bga", "bgb", "hom", "cns"]) :
    (RelationFromCode c).Code = c ∧ RelationFromCode c ≠ None := by
  simp only [List.mem_cons, List.mem_singleton, List.not_mem_nil, or_false] at h
  rcases h with h | h | h | h | h | h | h | h | h | h | h | h <;> subst h <;> decide

/-- C4. Relation round-trip: for each of the 12 known codes `c`,
`RelationFromCode(c).Code()` is `c`, and `RelationFromCode(c)` is not `None`. -/
theorem RelationFromCode_Code (c : String)
    (h : c ∈ ["jja", "jjb", "syn", "trg", "ant", "spc", "com", "par", "bga", "bgb", "hom", "cns"]) :
    (RelationFromCode c).Code = c ∧ RelationFromCode c ≠ None :=
  known_code_round_trip c h

/-- C4 at the code `"syn"`. -/
theorem RelationFromCode_Code_witness :
    (RelationFromCode "syn").Code = "syn" ∧ RelationFromCode "syn" ≠ None :=
  RelationFromCode_Code "syn" (by decide)

/-- A code outside the table of `RelationFromCode` yields `None`. -/
theorem RelationFromCode_unknown (s : String)
    (h : s ∉ ["jja", "jjb", "syn", "trg", "ant", "spc", "com", "par", "bga", "bgb", "hom", "cns"]) :
    RelationFromCode s = None := by
  simp only [List.mem_cons, List.mem_singleton, List.not_mem_nil, or_false, not_or] at h
  obtain ⟨h1, h2, h3, h4, h5, h6, h7, h8, h9, h10, h11, h12⟩ := h
  simp [RelationFromCode, h1, h2, h3, h4, h5, h6, h7, h8, h9, h10, h11, h12]

/-- C5. Unknown relation codes: for every string `s` outside the 12 known
codes, `RelationFromCode(s)` is `None`, and `relatesCommand.suggest` with
relation `s` returns the invalid-relation error for every query of `len` at
least 3 (whatever `max` and `topics` are), with nothing handed to the
transport. -/
theorem relates_unknown_code (env : Env) (s : String)
    (h : s ∉ ["jja", "jjb", "syn", "trg", "ant", "spc", "com", "par", "bga", "bgb", "hom", "cns"]) :
    RelationFromCode s = None ∧
    ∀ (max : Int) (topics query : String), len query ≥ 3 →
      ((relatesCommand.mk s max topics).suggest env query).result
          = .error (Error.invalidRelationCode s) ∧
      ((relatesCommand.mk s max topics).suggest env query).calls = [] := by
  have hs := RelationFromCode_unknown s h
  refine ⟨hs, fun max topics query hq => ?_⟩
  have hq' : ¬ len query < 3 := by omega
  simp [relatesCommand.suggest, hq', hs, Outcome.fail]

/-- C5 at the code `"xyz"` and the query `"sea"`. -/
theorem relates_unknown_code_witness :
    RelationFromCode "xyz" = None ∧
    ((relatesCommand.mk "xyz" 5 "").suggest quietEnv "sea").result
      = .error (Error.invalidRelationCode "xyz") :=
  ⟨(relates_unknown_code quietEnv "xyz" (by decide)).1,
   ((relates_unknown_code quietEnv "xyz" (by decide)).2 5 "" "sea" (by decide)).1⟩

/-- C7. Mode setter: `Constrain(mode, relation)` fails, and then with
`ErrRelationRequired`, exactly when `mode = RelatesLike` and
`relation = None`; a failing call leaves the builder as it was; for a mode
other than `RelatesLike` the builder after the call (its constraint key in
particular) and the returned error are the same for any two relations. -/
theorem Constrain_contract (api : APIProperties) (mode : SearchConstraint)
    (relation : RelationConstraint) :
    ((api.Constrain mode relation).2 = some Error.ErrRelationRequired ↔
      (mode = RelatesLike ∧ relation = None)) ∧
    ((api.Constrain mode relation).2 ≠ none ↔ (mode = RelatesLike ∧ relation = None)) ∧
    ((api.Constrain mode relation).2 ≠ none → (api.Constrain mode relation).1 = api) ∧
    (mode ≠ RelatesLike → ∀ relation₂ : RelationConstraint,
      (api.Constrain mode relation₂).1.constraint = (api.Constrain mode relation).1.constraint ∧
      api.Constrain mode relation₂ = api.Constrain mode relation) := by
  by_cases h0 : mode = MeansLike
  · subst h0
    simp [APIProperties.Constrain, MeansLike, RelatesLike]
  by_cases h1 : mode = SoundsLike
  · subst h1
    simp [APIProperties.Constrain, MeansLike, SoundsLike, RelatesLike]
  by_cases h2 : mode = SpellsLike
  · subst h2
    simp [APIProperties.Constrain, MeansLike, SoundsLike, SpellsLike, RelatesLike]
  by_cases h3 : mode = RelatesLike
  · subst h3
    by_cases hr : relation = None
    · simp [APIProperties.Constrain, MeansLike, SoundsLike, SpellsLike, RelatesLike, hr]
    · simp [APIProperties.Constrain, MeansLike, SoundsLike, SpellsLike, RelatesLike, hr]
  · simp [APIProperties.Constrain, h0, h1, h2, h3]

/-- C7 on the builder of `API()`: `RelatesLike` with `None` fails and leaves
the builder; `MeansLike` gives the key `ml` for `Synonyms` as for `None`. -/
theorem Constrain_contract_witness :
    (API.Constrain RelatesLike None).1 = API ∧
    (API.Constrain MeansLike Synonyms).1.constraint = (API.Constrain MeansLike None).1.constraint :=
  ⟨(Constrain_contract API RelatesLike None).2.2.1 (by decide),
   ((Constrain_contract API MeansLike None).2.2.2 (by decide) Synonyms).1⟩

/-- The accumulator loop of `String.intercalate` with a comma. -/
theorem intercalate_go_comma (topics : List String) :
    ∀ acc : String, String.intercalate.go acc "," topics =
      if topics = [] then acc else acc ++ "," ++ commaJoined topics := by
  induction topics with
  | nil =>
    intro acc
    simp [String.intercalate.go]
  | cons a as ih =>
    intro acc
    simp only [String.intercalate.go, ih]
    cases as with
    | nil => simp [commaJoined]
    | cons b bs => simp [commaJoined, String.append_assoc]

/-- Go `strings.Join` with a comma joins the way the specification words
it. -/
theorem Join_eq_commaJoined (topics : List String) : Join topics "," = commaJoined topics := by
  cases topics with
  | nil => rfl
  | cons a as =>
    simp only [Join, String.intercalate, intercalate_go_comma]
    cases as with
    | nil => simp [commaJoined]
    | cons b bs => simp [commaJoined]

/-- The parameter map of `Complete` is the one the specification describes,
for a constraint key other than `max` and `topics`. -/
theorem params_eq_encode (api : APIProperties) (query : String)
    (h1 : api.constraint ≠ "max") (h2 : api.constraint ≠ "topics") :
    api.params query = encode api.constraint query api.maxResults api.topics := by
  cases hts : api.topics with
  | nil => simp [APIProperties.params, encode, Values.Set, hts, h1]
  | cons a as =>
    simp [APIProperties.params, encode, Values.Set, hts, h1, h2, Join_eq_commaJoined]

/-- The method `Constrain(MeansLike, _)` sets the key `ml`. -/
theorem Constrain_MeansLike (api : APIProperties) (r : RelationConstraint) :
    api.Constrain MeansLike r = ({ api with constraint := "ml" }, none) := by
  simp [APIProperties.Constrain]

/-- The method `Constrain(SoundsLike, _)` sets the key `sl`. -/
theorem Constrain_SoundsLike (api : APIProperties) (r : RelationConstraint) :
    api.Constrain SoundsLike r = ({ api with constraint := "sl" }, none) := by
  simp [APIProperties.Constrain, MeansLike, SoundsLike]

/-- The method `Constrain(SpellsLike, _)` sets the key `sp`. -/
theorem Constrain_SpellsLike (api : APIProperties) (r : RelationConstraint) :
    api.Constrain SpellsLike r = ({ api with constraint := "sp" }, none) := by
  simp [APIProperties.Constrain, MeansLike, SoundsLike, SpellsLike]

/-- The method `Constrain(RelatesLike, r)` with a relation other than `None` sets the key
`rel_` followed by the code of `r`. -/
theorem Constrain_RelatesLike (api : APIProperties) (r : RelationConstraint) (hr : r ≠ None) :
    api.Constrain RelatesLike r = ({ api with constraint := "rel_" ++ r.Code }, none) := by
  simp [APIProperties.Constrain, MeansLike, SoundsLike, SpellsLike, RelatesLike, hr]

/-- The method `Limit` outside `[1, 1000]`. -/
theorem Limit_of_out (api : APIProperties) (max : Int) (h : max < 1 ∨ max > 1000) :
    api.Limit max = (api, some Error.ErrTooManyResults) := by
  simp [APIProperties.Limit, h]

/-- The method `Limit` inside `[1, 1000]`. -/
theorem Limit_of_in (api : APIProperties) (max : Int) (h : ¬ (max < 1 ∨ max > 1000)) :
    api.Limit max = ({ api with maxResults := max }, none) := by
  simp [APIProperties.Limit, h]

/-- The method `RelateToTopics` with more than 1000 topics. -/
theorem RelateToTopics_of_many (api : APIProperties) (topics : List String)
    (h : topics.length > 1000) :
    api.RelateToTopics topics = (api, some Error.ErrTooManyTopics) := by
  simp [APIProperties.RelateToTopics, h]

/-- The method `RelateToTopics` with at most 1000 topics. -/
theorem RelateToTopics_of_few (api : APIProperties) (topics : List String)
    (h : ¬ topics.length > 1000) :
    api.RelateToTopics topics = ({ api with topics := topics }, none) := by
  simp [APIProperties.RelateToTopics, h]

/-- The method `Complete` on a builder whose key is neither `max` nor `topics`. -/
theorem Complete_eq_encode (env : Env) (api : APIProperties) (query : String)
    (h1 : api.constraint ≠ "max") (h2 : api.constraint ≠ "topics") :
    api.Complete env query =
      { result := env.Get (encode api.constraint query api.maxResults api.topics)
        calls := [encode api.constraint query api.maxResults api.topics] } := by
  simp [APIProperties.Complete, params_eq_encode api query h1 h2]

/-- The body of `meansCommand.suggest` after the length check. -/
theorem meansCommand_suggest_long (env : Env) (c : meansCommand) (query : String)
    (hq : len query ≥ 3) :
    c.suggest env query =
      if c.max < 1 ∨ c.max > 1000 then Outcome.fail Error.ErrTooManyResults
      else if (parseTopics c.topics).length > 1000 then Outcome.fail Error.ErrTooManyTopics
      else { result := env.Get (encode "ml" (env.ToLower query) c.max (parseTopics c.topics))
             calls := [encode "ml" (env.ToLower query) c.max (parseTopics c.topics)] } := by
  have hq' : ¬ len query < 3 := by omega
  simp only [meansCommand.suggest, hq', if_false, Constrain_MeansLike]
  by_cases hm : c.max < 1 ∨ c.max > 1000
  · simp only [Limit_of_out _ _ hm, hm, if_true]
  · simp only [Limit_of_in _ _ hm, hm, if_false]
    by_cases ht : (parseTopics c.topics).length > 1000
    · simp only [RelateToTopics_of_many _ _ ht, ht, if_true]
    · simp only [RelateToTopics_of_few _ _ ht, ht, if_false]
      exact Complete_eq_encode env _ _ (show "ml" ≠ "max" by decide) (show "ml" ≠ "topics" by decide)

/-- The body of `soundsCommand.suggest` after the length check. -/
theorem soundsCommand_suggest_long (env : Env) (c : soundsCommand) (query : String)
    (hq : len query ≥ 3) :
    c.suggest env query =
      if c.max < 1 ∨ c.max > 1000 then Outcome.fail Error.ErrTooManyResults
      else if (parseTopics c.topics).length > 1000 then Outcome.fail Error.ErrTooManyTopics
      else { result := env.Get (encode "sl" (env.ToLower query) c.max (parseTopics c.topics))
             calls := [encode "sl" (env.ToLower query) c.max (parseTopics c.topics)] } := by
  have hq' : ¬ len query < 3 := by omega
  simp only [soundsCommand.suggest, hq', if_false, Constrain_SoundsLike]
  by_cases hm : c.max < 1 ∨ c.max > 1000
  · simp only [Limit_of_out _ _ hm, hm, if_true]
  · simp only [Limit_of_in _ _ hm, hm, if_false]
    by_cases ht : (parseTopics c.topics).length > 1000
    · simp only [RelateToTopics_of_many _ _ ht, ht, if_true]
    · simp only [RelateToTopics_of_few _ _ ht, ht, if_false]
      exact Complete_eq_encode env _ _ (show "sl" ≠ "max" by decide) (show "sl" ≠ "topics" by decide)

/-- The body of `spellCommand.suggest` after the length check. -/
theorem spellCommand_suggest_long (env : Env) (c : spellCommand) (query : String)
    (hq : len query ≥ 3) :
    c.suggest env query =
      if c.max < 1 ∨ c.max > 1000 then Outcome.fail Error.ErrTooManyResults
      else if (parseTopics c.topics).length > 1000 then Outcome.fail Error.ErrTooManyTopics
      else { result := env.Get (encode "sp" (env.ToLower query) c.max (parseTopics c.topics))
             calls := [encode "sp" (env.ToLower query) c.max (parseTopics c.topics)] } := by
  have hq' : ¬ len query < 3 := by omega
  simp only [spellCommand.suggest, hq', if_false, Constrain_SpellsLike]
  by_cases hm : c.max < 1 ∨ c.max > 1000
  · simp only [Limit_of_out _ _ hm, hm, if_true]
  · simp only [Limit_of_in _ _ hm, hm, if_false]
    by_cases ht : (parseTopics c.topics).length > 1000
    · simp only [RelateToTopics_of_many _ _ ht, ht, if_true]
    · simp only [RelateToTopics_of_few _ _ ht, ht, if_false]
      exact Complete_eq_encode env _ _ (show "sp" ≠ "max" by decide) (show "sp" ≠ "topics" by decide)

/-- The key `rel_` followed by a known code is neither `max` nor `topics`. -/
theorem rel_key_ne (c : String)
    (h : c ∈ ["jja", "jjb", "syn", "trg", "ant", "spc", "com", "par", "bga", "bgb", "hom", "cns"]) :
    "rel_" ++ c ≠ "max" ∧ "rel_" ++ c ≠ "topics" := by
  simp only [List.mem_cons, List.mem_singleton, List.not_mem_nil, or_false] at h
  rcases h with h | h | h | h | h | h | h | h | h | h | h | h <;> subst h <;> decide

/-- The body of `relatesCommand.suggest` after the length check, for a known
relation code. -/
theorem relatesCommand_suggest_long (env : Env) (c : relatesCommand) (query : String)
    (hq : len query ≥ 3)
    (hc : c.relation ∈
      ["jja", "jjb", "syn", "trg", "ant", "spc", "com", "par", "bga", "bgb", "hom", "cns"]) :
    c.suggest env query =
      if c.max < 1 ∨ c.max > 1000 then Outcome.fail Error.ErrTooManyResults
      else if (parseTopics c.topics).length > 1000 then Outcome.fail Error.ErrTooManyTopics
      else { result := env.Get
               (encode ("rel_" ++ c.relation) (env.ToLower query) c.max (parseTopics c.topics))
             calls :=
               [encode ("rel_" ++ c.relation) (env.ToLower query) c.max (parseTopics c.topics)] } := by
  have hq' : ¬ len query < 3 := by omega
  obtain ⟨hcode, hne⟩ := known_code_round_trip c.relation hc
  obtain ⟨hk1, hk2⟩ := rel_key_ne c.relation hc
  simp only [relatesCommand.suggest, hq', if_false, hne, Constrain_RelatesLike _ _ hne, hcode]
  by_cases hm : c.max < 1 ∨ c.max > 1000
  · simp only [Limit_of_out _ _ hm, hm, if_true]
  · simp only [Limit_of_in _ _ hm, hm, if_false]
    by_cases ht : (parseTopics c.topics).length > 1000
    · simp only [RelateToTopics_of_many _ _ ht, ht, if_true]
    · simp only [RelateToTopics_of_few _ _ ht, ht, if_false]
      exact Complete_eq_encode env _ _ hk1 hk2

/-- Whatever the relation code, `relatesCommand.suggest` fails without
reaching the transport when `max` is out of range or there are more than 1000
topics, on a query of `len` at least 3. -/
theorem relatesCommand_suggest_invalid (env : Env) (c : relatesCommand) (query : String)
    (hq : len query ≥ 3)
    (hbad : c.max < 1 ∨ c.max > 1000 ∨ (parseTopics c.topics).length > 1000) :
    (c.suggest env query).calls = [] ∧ ∃ err, (c.suggest env query).result = .error err := by
  have hq' : ¬ len query < 3 := by omega
  simp only [relatesCommand.suggest, hq', if_false]
  by_cases hr : RelationFromCode c.relation = None
  · simp [hr, Outcome.fail]
  · simp only [hr, if_false, Constrain_RelatesLike _ _ hr]
    by_cases hm : c.max < 1 ∨ c.max > 1000
    · simp [Limit_of_out _ _ hm, Outcome.fail]
    · simp only [Limit_of_in _ _ hm]
      have ht : (parseTopics c.topics).length > 1000 := by
        rcases hbad with h | h | h
        · exact absurd (Or.inl h) hm
        · exact absurd (Or.inr h) hm
        · exact h
      simp [RelateToTopics_of_many _ _ ht, Outcome.fail]

set_option maxRecDepth 100000 in
/-- The flag `manyTopics` normalizes to 1001 topics. -/
theorem manyTopics_length : (parseTopics manyTopics).length = 1001 := by
  decide

/-- Reading `encode` as a map: the mode key holds the query, `max` holds the
decimal limit, `topics` is present exactly when there is a topic, and no
other key is present. -/
theorem encode_Get (key query : String) (limit : Int) (topics : List String)
    (h1 : key ≠ "max") (h2 : key ≠ "topics") (k : String) :
    Values.Get (encode key query limit topics) k =
      if k = key then some query
      else if k = "max" then some (Itoa limit)
      else if k = "topics" ∧ topics ≠ [] then some (commaJoined topics)
      else none := by
  by_cases hk : k = key
  · subst hk
    simp [encode, Values.Get, List.find?]
  · have hk' : ¬ key = k := fun h => hk h.symm
    by_cases hm : k = "max"
    · subst hm
      simp [encode, Values.Get, List.find?, hk', hk]
    · have hm' : ¬ "max" = k := fun h => hm h.symm
      by_cases ht : k = "topics"
      · subst ht
        by_cases hts : topics = [] <;> simp [encode, Values.Get, List.find?, hk', hk, hts]
      · have ht' : ¬ "topics" = k := fun h => ht h.symm
        by_cases hts : topics = [] <;>
          simp [encode, Values.Get, List.find?, hk', hm', hm, ht, ht', hts, hk]

/-- C6, the claim as stated fails: with the limit 10 and a topics flag of 1001
topics, `spell` hands no parameters to the transport on the query `"hel"`;
`RelateToTopics` fails first and `suggest` returns `ErrTooManyTopics`. -/
theorem many_topics_send_no_request :
    (parseTopics manyTopics).length = 1001 ∧
    ((spellCommand.mk 10 manyTopics).suggest quietEnv "hel").calls = [] ∧
    ((spellCommand.mk 10 manyTopics).suggest quietEnv "hel").result
      = .error Error.ErrTooManyTopics := by
  have hlen := manyTopics_length
  have hq : len "hel" ≥ 3 := by decide
  have hm : ¬ ((10 : Int) < 1 ∨ (10 : Int) > 1000) := by decide
  have ht : (parseTopics manyTopics).length > 1000 := by
    rw [hlen]
    decide
  have h := spellCommand_suggest_long quietEnv ⟨10, manyTopics⟩ "hel" hq
  simp only [hm, ht, if_false, if_true] at h
  rw [h]
  exact ⟨hlen, rfl, rfl⟩

/-- C6, amended. Request encoding: for a limit `n` in `[1, 1000]`, every
topics string whose normalized list has at most 1000 entries and every query
of `len` at least 3, each suggester hands to the transport exactly one
parameter map, and that map is: the key of the mode (`ml`, `sl`, `sp`, or
`rel_` followed by the known relation code) mapped to the lower-cased query,
`max` mapped to the decimal rendering of `n`, and `topics` mapped to the
comma-joined normalized topics exactly when that list is non-empty; no other
key is present. With more than 1000 normalized topics no parameter map is
handed to the transport. -/
theorem request_encoding (env : Env) (n : Int) (t query : String)
    (hn : 1 ≤ n ∧ n ≤ 1000) (hq : len query ≥ 3) :
    ((meansCommand.mk n t).suggest env query).calls =
      (if (parseTopics t).length ≤ 1000
        then [encode "ml" (env.ToLower query) n (parseTopics t)] else []) ∧
    ((soundsCommand.mk n t).suggest env query).calls =
      (if (parseTopics t).length ≤ 1000
        then [encode "sl" (env.ToLower query) n (parseTopics t)] else []) ∧
    ((spellCommand.mk n t).suggest env query).calls =
      (if (parseTopics t).length ≤ 1000
        then [encode "sp" (env.ToLower query) n (parseTopics t)] else []) ∧
    (∀ c ∈ ["jja", "jjb", "syn", "trg", "ant", "spc", "com", "par", "bga", "bgb", "hom", "cns"],
      ((relatesCommand.mk c n t).suggest env query).calls =
        (if (parseTopics t).length ≤ 1000
          then [encode ("rel_" ++ c) (env.ToLower query) n (parseTopics t)] else [])) ∧
    (∀ key ∈ ["ml", "sl", "sp", "rel_jja", "rel_jjb", "rel_syn", "rel_trg", "rel_ant", "rel_spc",
        "rel_com", "rel_par", "rel_bga", "rel_bgb", "rel_hom", "rel_cns"],
      ∀ k : String, Values.Get (encode key (env.ToLower query) n (parseTopics t)) k =
        if k = key then some (env.ToLower query)
        else if k = "max" then some (Itoa n)
        else if k = "topics" ∧ parseTopics t ≠ [] then some (commaJoined (parseTopics t))
        else none) := by
  have hm : ¬ (n < 1 ∨ n > 1000) := by omega
  refine ⟨?_, ?_, ?_, ?_, ?_⟩
  · rw [meansCommand_suggest_long env _ _ hq]
    by_cases ht : (parseTopics t).length > 1000
    · have ht' : ¬ (parseTopics t).length ≤ 1000 := by omega
      simp [hm, ht, ht', Outcome.fail]
    · have ht' : (parseTopics t).length ≤ 1000 := by omega
      simp [hm, ht, ht']
  · rw [soundsCommand_suggest_long env _ _ hq]
    by_cases ht : (parseTopics t).length > 1000
    · have ht' : ¬ (parseTopics t).length ≤ 1000 := by omega
      simp [hm, ht, ht', Outcome.fail]
    · have ht' : (parseTopics t).length ≤ 1000 := by omega
      simp [hm, ht, ht']
  · rw [spellCommand_suggest_long env _ _ hq]
    by_cases ht : (parseTopics t).length > 1000
    · have ht' : ¬ (parseTopics t).length ≤ 1000 := by omega
      simp [hm, ht, ht', Outcome.fail]
    · have ht' : (parseTopics t).length ≤ 1000 := by omega
      simp [hm, ht, ht']
  · intro c hc
    rw [relatesCommand_suggest_long env _ _ hq hc]
    by_cases ht : (parseTopics t).length > 1000
    · have ht' : ¬ (parseTopics t).length ≤ 1000 := by omega
      simp [hm, ht, ht', Outcome.fail]
    · have ht' : (parseTopics t).length ≤ 1000 := by omega
      simp [hm, ht, ht']
  · intro key hkey k
    have hne : key ≠ "max" ∧ key ≠ "topics" := by
      simp only [List.mem_cons, List.mem_singleton, List.not_mem_nil, or_false] at hkey
      rcases hkey with h | h | h | h | h | h | h | h | h | h | h | h | h | h | h <;>
        subst h <;> decide
    exact encode_Get key _ n _ hne.1 hne.2 k

/-- C6, amended, on the two scenarios of the specification (`spell` with
limit 10, no topics and `"hel"`; `relates syn` with limit 5 and `"sea"`), and
on `relates syn` with limit 5, the topics flag ` a, b ,,c ` and the query
`"SEA"`. -/
theorem request_encoding_witness :
    ((spellCommand.mk 10 "").suggest quietEnv "hel").calls = [[("sp", "hel"), ("max", "10")]] ∧
    ((relatesCommand.mk "syn" 5 "").suggest quietEnv "sea").calls
      = [[("rel_syn", "sea"), ("max", "5")]] ∧
    ((relatesCommand.mk "syn" 5 " a, b ,,c ").suggest quietEnv "SEA").calls
      = [[("rel_syn", "sea"), ("max", "5"), ("topics", "a,b,c")]] ∧
    ((meansCommand.mk 1000 "religion,mythology").suggest quietEnv "Zeus").calls
      = [[("ml", "zeus"), ("max", "1000"), ("topics", "religion,mythology")]] :=
  ⟨(request_encoding quietEnv 10 "" "hel" (by decide) (by decide)).2.2.1,
   (request_encoding quietEnv 5 "" "sea" (by decide) (by decide)).2.2.2.1 "syn" (by decide),
   (request_encoding quietEnv 5 " a, b ,,c " "SEA" (by decide) (by decide)).2.2.2.1 "syn"
      (by decide),
   (request_encoding quietEnv 1000 "religion,mythology" "Zeus" (by decide) (by decide)).1⟩

/-- C8, the claim as stated fails: `relates` with the unknown code `"xyz"`
and `max = 0` returns the invalid-relation error on the query `"sea"`, not
`ErrTooManyResults`. -/
theorem relates_unknown_code_before_limit :
    ((relatesCommand.mk "xyz" 0 "").suggest quietEnv "sea").result
      = .error (Error.invalidRelationCode "xyz") ∧
    ((relatesCommand.mk "xyz" 0 "").suggest quietEnv "sea").result
      ≠ .error Error.ErrTooManyResults := by
  have h : ((relatesCommand.mk "xyz" 0 "").suggest quietEnv "sea").result
      = .error (Error.invalidRelationCode "xyz") := rfl
  refine ⟨h, ?_⟩
  rw [h]
  intro h'
  cases h'

/-- C8, amended. Validation precedes I/O: for every query of `len` at least
3, if `max` is outside `[1, 1000]` or the normalized topic list has more than
1000 entries, then `means`, `sounds`, `spell`, and `relates` with one of the
12 known codes return `ErrTooManyResults` when `max` is out of range and
`ErrTooManyTopics` otherwise, and `relates` with a code outside the 12 known
ones returns the invalid-relation error for that code; in every case nothing
is handed to the transport. -/
theorem validation_precedes_transport (env : Env) (max : Int) (t query : String)
    (hq : len query ≥ 3)
    (hbad : max < 1 ∨ max > 1000 ∨ (parseTopics t).length > 1000) :
    ((meansCommand.mk max t).suggest env query).result
        = .error (if max < 1 ∨ max > 1000 then Error.ErrTooManyResults else Error.ErrTooManyTopics) ∧
    ((meansCommand.mk max t).suggest env query).calls = [] ∧
    ((soundsCommand.mk max t).suggest env query).result
        = .error (if max < 1 ∨ max > 1000 then Error.ErrTooManyResults else Error.ErrTooManyTopics) ∧
    ((soundsCommand.mk max t).suggest env query).calls = [] ∧
    ((spellCommand.mk max t).suggest env query).result
        = .error (if max < 1 ∨ max > 1000 then Error.ErrTooManyResults else Error.ErrTooManyTopics) ∧
    ((spellCommand.mk max t).suggest env query).calls = [] ∧
    (∀ c ∈ ["jja", "jjb", "syn", "trg", "ant", "spc", "com", "par", "bga", "bgb", "hom", "cns"],
      ((relatesCommand.mk c max t).suggest env query).result
        = .error (if max < 1 ∨ max > 1000 then Error.ErrTooManyResults
                  else Error.ErrTooManyTopics) ∧
      ((relatesCommand.mk c max t).suggest env query).calls = []) ∧
    (∀ c : String, ((relatesCommand.mk c max t).suggest env query).calls = [] ∧
      ∃ err, ((relatesCommand.mk c max t).suggest env query).result = .error err) ∧
    (∀ c : String,
      c ∉ ["jja", "jjb", "syn", "trg", "ant", "spc", "com", "par", "bga", "bgb", "hom", "cns"] →
      ((relatesCommand.mk c max t).suggest env query).result
        = .error (Error.invalidRelationCode c) ∧
      ((relatesCommand.mk c max t).suggest env query).calls = []) := by
  have key : ∀ o : Outcome,
      o = (if max < 1 ∨ max > 1000 then Outcome.fail Error.ErrTooManyResults
           else if (parseTopics t).length > 1000 then Outcome.fail Error.ErrTooManyTopics
           else o) →
      o.result = .error (if max < 1 ∨ max > 1000 then Error.ErrTooManyResults
                         else Error.ErrTooManyTopics) ∧ o.calls = [] := by
    intro o ho
    by_cases hm : max < 1 ∨ max > 1000
    · rw [ho]
      simp [hm, Outcome.fail]
    · have ht : (parseTopics t).length > 1000 := by
        rcases hbad with h | h | h
        · exact absurd (Or.inl h) hm
        · exact absurd (Or.inr h) hm
        · exact h
      rw [ho]
      simp [hm, ht, Outcome.fail]
  have red : ∀ (o a : Outcome),
      o = (if max < 1 ∨ max > 1000 then Outcome.fail Error.ErrTooManyResults
           else if (parseTopics t).length > 1000 then Outcome.fail Error.ErrTooManyTopics
           else a) →
      o = (if max < 1 ∨ max > 1000 then Outcome.fail Error.ErrTooManyResults
           else if (parseTopics t).length > 1000 then Outcome.fail Error.ErrTooManyTopics
           else o) := by
    intro o a ho
    by_cases hm : max < 1 ∨ max > 1000
    · simpa [hm] using ho
    · by_cases ht : (parseTopics t).length > 1000
      · simpa [hm, ht] using ho
      · simp [hm, ht]
  have hmeans := key _ (red _ _ (meansCommand_suggest_long env ⟨max, t⟩ query hq))
  have hsounds := key _ (red _ _ (soundsCommand_suggest_long env ⟨max, t⟩ query hq))
  have hspell := key _ (red _ _ (spellCommand_suggest_long env ⟨max, t⟩ query hq))
  refine ⟨hmeans.1, hmeans.2, hsounds.1, hsounds.2, hspell.1, hspell.2, ?_, ?_, ?_⟩
  · intro c hc
    exact key _ (red _ _ (relatesCommand_suggest_long env ⟨c, max, t⟩ query hq hc))
  · intro c
    exact relatesCommand_suggest_invalid env ⟨c, max, t⟩ query hq hbad
  · intro c hc
    have hs := RelationFromCode_unknown c hc
    have hq' : ¬ len query < 3 := by omega
    simp [relatesCommand.suggest, hq', hs, Outcome.fail]

/-- C8, amended, on the query `"sea"`: at `max = 0`, at `max = 1001`, at
`max = 10` with 1001 topics, and at `max = 0` with the unknown code `xyz`. -/
theorem validation_precedes_transport_witness :
    ((meansCommand.mk 0 "").suggest quietEnv "sea").result = .error Error.ErrTooManyResults ∧
    ((relatesCommand.mk "syn" 1001 "").suggest quietEnv "sea").calls = [] ∧
    ((spellCommand.mk 10 manyTopics).suggest quietEnv "sea").result
      = .error Error.ErrTooManyTopics ∧
    ((relatesCommand.mk "xyz" 0 "").suggest quietEnv "sea").result
      = .error (Error.invalidRelationCode "xyz") :=
  ⟨(validation_precedes_transport quietEnv 0 "" "sea" (by decide) (by decide)).1,
   ((validation_precedes_transport quietEnv 1001 "" "sea" (by decide) (by decide)).2.2.2.2.2.2.1
      "syn" (by decide)).2,
   (validation_precedes_transport quietEnv 10 manyTopics "sea" (by decide)
      (Or.inr (Or.inr (by rw [manyTopics_length]; decide)))).2.2.2.2.1,
   ((validation_precedes_transport quietEnv 0 "" "sea" (by decide) (by decide)).2.2.2.2.2.2.2.2
      "xyz" (by decide)).1⟩

/-! ## Theorems: the session -/

/-- The method `SetItems` stores the given items. -/
theorem list.Model.Items_SetItems (l : list.Model) (i : List wordItem) :
    (l.SetItems i).Items = i := by
  simp [list.Model.SetItems, list.Model.updatePagination, list.Model.Items]

/-- C1, the claim as stated fails. After `o`, `c`, `e` a request for `"oce"`
is issued; after `a` a request for `"ocea"` is issued and its response
arrives, so the input is `"ocea"` and the list holds the result for `"ocea"`.
The response to the earlier request for `"oce"`, delivered now, replaces the
list by the result for `"oce"`. -/
theorem stale_response_replaces_list :
    Cmd.getSuggestions "oce" ∈
      (((initialModel lineInput 6 "Phoenician" "" echoSuggester).run lineInput
          [.KeyMsg (.other "o"), .KeyMsg (.other "c")]).Update lineInput
            (.KeyMsg (.other "e"))).cmds ∧
    Cmd.getSuggestions "ocea" ∈ (sessionOce.Update lineInput (.KeyMsg (.other "a"))).cmds ∧
    lineInput.Value sessionOcea.textInput = "ocea" ∧
    sessionOcea.suggestionsList.Items = [{ word := "ocea", score := 1 }] ∧
    (sessionOcea.Update lineInput (sessionOce.getSuggestions "oce")).m.suggestionsList.Items
      = [{ word := "oce", score := 1 }] ∧
    (sessionOcea.Update lineInput (sessionOce.getSuggestions "oce")).m.suggestionsList.Items
      ≠ sessionOcea.suggestionsList.Items := by
  decide

/-- C1, amended. The session keeps no generation tag: for every session
state `m` (whatever its input text) and every request issued earlier, from a
state `m₀`, for an input `q1`, the message of that request is a
`suggestionResponse`, and delivering it to `m` is handled like any other
response: the suggestion list becomes the words `suggest` returned for `q1`
(no words if it failed), `showSuggestions` becomes true exactly when that
list is non-empty; the input text, `finalResults`, `showResults` and
`quitting` are unchanged and no command is returned. -/
theorem stale_response_handled_as_current {TI : Type} (ti : textinput TI) (m m₀ : model TI)
    (q1 : String) :
    ∃ words : List WordsResponse,
      m₀.getSuggestions q1 = Msg.suggestionResponse words ∧
      words = (match m₀.suggester q1 with
        | .ok ws => ws
        | .error _ => []) ∧
      (m.Update ti (m₀.getSuggestions q1)).m.suggestionsList.Items
        = words.map wordItem.ofResponse ∧
      (m.Update ti (m₀.getSuggestions q1)).m.showSuggestions = decide (words ≠ []) ∧
      (m.Update ti (m₀.getSuggestions q1)).m.textInput = m.textInput ∧
      (m.Update ti (m₀.getSuggestions q1)).m.finalResults = m.finalResults ∧
      (m.Update ti (m₀.getSuggestions q1)).m.showResults = m.showResults ∧
      (m.Update ti (m₀.getSuggestions q1)).m.quitting = m.quitting ∧
      (m.Update ti (m₀.getSuggestions q1)).cmds = [] := by
  have step : ∀ words : List WordsResponse,
      (m.Update ti (Msg.suggestionResponse words)).m.suggestionsList.Items
        = words.map wordItem.ofResponse ∧
      (m.Update ti (Msg.suggestionResponse words)).m.showSuggestions = decide (words ≠ []) ∧
      (m.Update ti (Msg.suggestionResponse words)).m.textInput = m.textInput ∧
      (m.Update ti (Msg.suggestionResponse words)).m.finalResults = m.finalResults ∧
      (m.Update ti (Msg.suggestionResponse words)).m.showResults = m.showResults ∧
      (m.Update ti (Msg.suggestionResponse words)).m.quitting = m.quitting ∧
      (m.Update ti (Msg.suggestionResponse words)).cmds = [] := by
    intro words
    refine ⟨?_, ?_, rfl, rfl, rfl, rfl, rfl⟩
    · simp only [model.Update, list.Model.Items_SetItems]
      rfl
    · cases words <;> simp [model.Update]
  cases h : m₀.suggester q1 with
  | error e =>
    refine ⟨[], ?_, rfl, ?_⟩
    · simp [model.getSuggestions, h]
    · have hmsg : m₀.getSuggestions q1 = Msg.suggestionResponse [] := by
        simp [model.getSuggestions, h]
      rw [hmsg]
      exact step []
  | ok ws =>
    refine ⟨ws, ?_, rfl, ?_⟩
    · simp [model.getSuggestions, h]
    · have hmsg : m₀.getSuggestions q1 = Msg.suggestionResponse ws := by
        simp [model.getSuggestions, h]
      rw [hmsg]
      exact step ws

/-- C9, the claim as stated fails: `means` with `max = 0` and `relates` with
the unknown code `"xyz"` both end their `RunE` inside `runApp`, on
`initialModel`, and not with an error. -/
theorem invalid_configuration_enters_session :
    (∃ m, newMeansCommand.RunE quietEnv lineInput 6 0 "" = RunOutcome.entered m) ∧
    (∃ m, newRelatesCommand.RunE quietEnv lineInput 6 "xyz" 10 "" = RunOutcome.entered m) ∧
    (∀ err, newMeansCommand.RunE quietEnv lineInput 6 0 "" ≠ RunOutcome.failed err) ∧
    (∀ err, newRelatesCommand.RunE quietEnv lineInput 6 "xyz" 10 "" ≠ RunOutcome.failed err) := by
  refine ⟨⟨_, rfl⟩, ⟨_, rfl⟩, ?_, ?_⟩
  · intro err h
    simp [newMeansCommand.RunE, runApp] at h
  · intro err h
    simp [newRelatesCommand.RunE, runApp] at h

/-- C9, amended. Session setup validates nothing: for every invocation of the
four commands, whatever `max`, `topics` and the relation code are, `RunE`
enters `runApp` on a model that shows neither results nor suggestions and
whose suggester is the configured one. An invalid configuration surfaces only
inside the session: with `max` outside `[1, 1000]`, or an unknown relation
code for `relates`, that suggester fails on every query of `len` at least
3. -/
theorem setup_always_enters_session {TI : Type} (env : Env) (ti : textinput TI) (perPage : Int)
    (relationCode : String) (maxResults : Int) (topics : String) :
    (∃ m, newMeansCommand.RunE env ti perPage maxResults topics = RunOutcome.entered m ∧
      m.showResults = false ∧ m.showSuggestions = false ∧ m.quitting = false ∧
      (∀ q, m.suggester q = ((meansCommand.mk maxResults topics).suggest env q).result) ∧
      ((maxResults < 1 ∨ maxResults > 1000) →
        ∀ q, len q ≥ 3 → m.suggester q = .error Error.ErrTooManyResults)) ∧
    (∃ m, newSoundsCommand.RunE env ti perPage maxResults topics = RunOutcome.entered m ∧
      m.showResults = false ∧ m.showSuggestions = false ∧ m.quitting = false ∧
      (∀ q, m.suggester q = ((soundsCommand.mk maxResults topics).suggest env q).result) ∧
      ((maxResults < 1 ∨ maxResults > 1000) →
        ∀ q, len q ≥ 3 → m.suggester q = .error Error.ErrTooManyResults)) ∧
    (∃ m, newSpellCommand.RunE env ti perPage maxResults topics = RunOutcome.entered m ∧
      m.showResults = false ∧ m.showSuggestions = false ∧ m.quitting = false ∧
      (∀ q, m.suggester q = ((spellCommand.mk maxResults topics).suggest env q).result) ∧
      ((maxResults < 1 ∨ maxResults > 1000) →
        ∀ q, len q ≥ 3 → m.suggester q = .error Error.ErrTooManyResults)) ∧
    (∃ m, newRelatesCommand.RunE env ti perPage relationCode maxResults topics
        = RunOutcome.entered m ∧
      m.showResults = false ∧ m.showSuggestions = false ∧ m.quitting = false ∧
      (∀ q, m.suggester q
        = ((relatesCommand.mk relationCode maxResults topics).suggest env q).result) ∧
      ((maxResults < 1 ∨ maxResults > 1000 ∨ RelationFromCode relationCode = None) →
        ∀ q, len q ≥ 3 → ∃ err, m.suggester q = .error err)) := by
  refine ⟨⟨_, rfl, rfl, rfl, rfl, fun _ => rfl, ?_⟩, ⟨_, rfl, rfl, rfl, rfl, fun _ => rfl, ?_⟩,
    ⟨_, rfl, rfl, rfl, rfl, fun _ => rfl, ?_⟩, ⟨_, rfl, rfl, rfl, rfl, fun _ => rfl, ?_⟩⟩
  · intro hbad q hq
    show ((meansCommand.mk maxResults topics).suggest env q).result = _
    rw [meansCommand_suggest_long env _ _ hq]
    simp [hbad, Outcome.fail]
  · intro hbad q hq
    show ((soundsCommand.mk maxResults topics).suggest env q).result = _
    rw [soundsCommand_suggest_long env _ _ hq]
    simp [hbad, Outcome.fail]
  · intro hbad q hq
    show ((spellCommand.mk maxResults topics).suggest env q).result = _
    rw [spellCommand_suggest_long env _ _ hq]
    simp [hbad, Outcome.fail]
  · intro hbad q hq
    show ∃ err, ((relatesCommand.mk relationCode maxResults topics).suggest env q).result = _
    have hq' : ¬ len q < 3 := by omega
    by_cases hr : RelationFromCode relationCode = None
    · exact ⟨Error.invalidRelationCode relationCode,
        by simp [relatesCommand.suggest, hq', hr, Outcome.fail]⟩
    · have hm : maxResults < 1 ∨ maxResults > 1000 := by
        rcases hbad with h | h | h
        · exact Or.inl h
        · exact Or.inr h
        · exact absurd h hr
      exact (relatesCommand_suggest_invalid env ⟨relationCode, maxResults, topics⟩ q hq
        (by rcases hm with h | h; exact Or.inl h; exact Or.inr (Or.inl h))).2

/-- C9, amended, at `means --max 0` and the query `"sea"`. -/
theorem setup_always_enters_session_witness :
    ∃ m, newMeansCommand.RunE quietEnv lineInput 6 0 "" = RunOutcome.entered m ∧
      m.suggester "sea" = .error Error.ErrTooManyResults := by
  obtain ⟨m, hm, _, _, _, _, hbad⟩ := (setup_always_enters_session quietEnv lineInput 6 "" 0 "").1
  exact ⟨m, hm, hbad (by decide) "sea" (by decide)⟩

/-- The method `CursorUp` keeps a list well-formed and leaves its items alone. -/
theorem list.Model.wf_CursorUp (l : list.Model) (h : l.wf) :
    l.CursorUp.wf ∧ l.CursorUp.items = l.items ∧
      l.CursorUp.InfiniteScrolling = l.InfiniteScrolling := by
  obtain ⟨items, cursor, ⟨Page, PerPage, TotalPages⟩, width, inf⟩ := l
  simp only [list.Model.wf, paginator.Model.ItemsOnPage, paginator.Model.GetSliceBounds] at h
  obtain ⟨h1, h2, h3, h4, h5, h6, h7⟩ := h
  have e1 : (TotalPages - 1) * PerPage = TotalPages * PerPage - PerPage := by ring
  have e2 : (Page - 1) * PerPage = Page * PerPage - PerPage := by ring
  have e3 : Page * PerPage ≤ (TotalPages - 1) * PerPage :=
    mul_le_mul_of_nonneg_right (by omega) (by omega)
  have e4 : 0 ≤ Page * PerPage := mul_nonneg h2 (by omega)
  have hn : ¬ ((items.length : Int) < 1) := by
    intro hlt
    omega
  simp only [hn, if_false] at h7
  simp only [list.Model.CursorUp, list.Model.wf, paginator.Model.ItemsOnPage,
    paginator.Model.GetSliceBounds, list.Model.VisibleItems, paginator.Model.PrevPage]
  split_ifs <;> simp_all <;> omega

/-- The method `CursorDown` keeps a list well-formed and leaves its items alone. -/
theorem list.Model.wf_CursorDown (l : list.Model) (h : l.wf) :
    l.CursorDown.wf ∧ l.CursorDown.items = l.items ∧
      l.CursorDown.InfiniteScrolling = l.InfiniteScrolling := by
  obtain ⟨items, cursor, ⟨Page, PerPage, TotalPages⟩, width, inf⟩ := l
  simp only [list.Model.wf, paginator.Model.ItemsOnPage, paginator.Model.GetSliceBounds] at h
  obtain ⟨h1, h2, h3, h4, h5, h6, h7⟩ := h
  have e1 : (TotalPages - 1) * PerPage = TotalPages * PerPage - PerPage := by ring
  have e2 : (Page + 1) * PerPage = Page * PerPage + PerPage := by ring
  have e3 : Page * PerPage ≤ (TotalPages - 1) * PerPage :=
    mul_le_mul_of_nonneg_right (by omega) (by omega)
  have e4 : 0 ≤ Page * PerPage := mul_nonneg h2 (by omega)
  have e5 : Page + 1 ≤ TotalPages - 1 → (Page + 1) * PerPage ≤ (TotalPages - 1) * PerPage :=
    fun hle => mul_le_mul_of_nonneg_right hle (by omega)
  have hn : ¬ ((items.length : Int) < 1) := by
    intro hlt
    omega
  simp only [hn, if_false] at h7
  simp only [list.Model.CursorDown, list.Model.wf, paginator.Model.ItemsOnPage,
    paginator.Model.GetSliceBounds, list.Model.VisibleItems, paginator.Model.NextPage,
    paginator.Model.OnLastPage]
  split_ifs <;> simp_all <;> omega

/-- The bounds step does nothing on a well-formed list. -/
theorem list.Model.keepInBounds_of_wf (l : list.Model) (h : l.wf) : l.keepInBounds = l := by
  have hc : ¬ l.cursor > l.Paginator.ItemsOnPage l.VisibleItems.length - 1 := by
    have := h.2.2.2.2.2.2
    simp only [list.Model.VisibleItems]
    omega
  simp only [list.Model.keepInBounds, hc, if_false]

/-- The key switch keeps a list well-formed and leaves its items alone. -/
theorem list.Model.wf_handleKey (l : list.Model) (msg : KeyMsg) (h : l.wf) :
    (l.handleKey msg).wf ∧ (l.handleKey msg).items = l.items ∧
      (l.handleKey msg).InfiniteScrolling = l.InfiniteScrolling := by
  cases msg with
  | up =>
    by_cases hi : l.items.length ≠ 0
    · simp only [list.Model.handleKey]
      rw [if_pos hi]
      exact l.wf_CursorUp h
    · simp only [list.Model.handleKey]
      rw [if_neg hi]
      exact ⟨h, rfl, rfl⟩
  | down =>
    by_cases hi : l.items.length ≠ 0
    · simp only [list.Model.handleKey]
      rw [if_pos hi]
      exact l.wf_CursorDown h
    · simp only [list.Model.handleKey]
      rw [if_neg hi]
      exact ⟨h, rfl, rfl⟩
  | ctrlC => exact ⟨h, rfl, rfl⟩
  | enter => exact ⟨h, rfl, rfl⟩
  | tab => exact ⟨h, rfl, rfl⟩
  | other key => exact ⟨h, rfl, rfl⟩

/-- On a well-formed list `Update` is the key switch. -/
theorem list.Model.Update_eq_handleKey (l : list.Model) (msg : KeyMsg) (h : l.wf) :
    l.Update msg = l.handleKey msg := by
  simp only [list.Model.Update]
  exact list.Model.keepInBounds_of_wf _ (l.wf_handleKey msg h).1

/-- The method `Update` on a key keeps a list well-formed and leaves its items alone. -/
theorem list.Model.wf_Update (l : list.Model) (msg : KeyMsg) (h : l.wf) :
    (l.Update msg).wf ∧ (l.Update msg).items = l.items ∧
      (l.Update msg).InfiniteScrolling = l.InfiniteScrolling := by
  rw [l.Update_eq_handleKey msg h]
  exact l.wf_handleKey msg h

/-- The index of a well-formed list is an index of its items. -/
theorem list.Model.Index_range (l : list.Model) (h : l.wf) :
    0 ≤ l.Index ∧ l.Index ≤ (l.items.length : Int) - 1 := by
  obtain ⟨items, cursor, ⟨Page, PerPage, TotalPages⟩, width, inf⟩ := l
  simp only [list.Model.wf, paginator.Model.ItemsOnPage, paginator.Model.GetSliceBounds] at h
  obtain ⟨h1, h2, h3, h4, h5, h6, h7⟩ := h
  have e4 : 0 ≤ Page * PerPage := mul_nonneg h2 (by omega)
  have hn : ¬ ((items.length : Int) < 1) := by
    intro hlt
    have e1 : (TotalPages - 1) * PerPage = TotalPages * PerPage - PerPage := by ring
    have e3 : Page * PerPage ≤ (TotalPages - 1) * PerPage :=
      mul_le_mul_of_nonneg_right (by omega) (by omega)
    omega
  simp only [hn, if_false] at h7
  simp only [list.Model.Index]
  omega

/-- With infinite scrolling, `up` on the first item selects the last one. -/
theorem list.Model.Update_up_at_first (l : list.Model) (h : l.wf)
    (hinf : l.InfiniteScrolling = true) (h0 : l.Index = 0) :
    (l.Update .up).Index = (l.items.length : Int) - 1 := by
  have hi : l.items.length ≠ 0 := by
    have := l.Index_range h
    omega
  rw [l.Update_eq_handleKey .up h]
  simp only [list.Model.handleKey]
  rw [if_pos hi]
  obtain ⟨items, cursor, ⟨Page, PerPage, TotalPages⟩, width, inf⟩ := l
  simp only [list.Model.wf, paginator.Model.ItemsOnPage, paginator.Model.GetSliceBounds] at h
  obtain ⟨h1, h2, h3, h4, h5, h6, h7⟩ := h
  simp only [list.Model.Index] at h0
  simp only at hinf
  have e1 : (TotalPages - 1) * PerPage = TotalPages * PerPage - PerPage := by ring
  have e4 : 0 ≤ Page * PerPage := mul_nonneg h2 (by omega)
  have hP : Page = 0 := by
    by_contra hne
    have : 1 * PerPage ≤ Page * PerPage := mul_le_mul_of_nonneg_right (by omega) (by omega)
    omega
  have hc : cursor = 0 := by omega
  subst hP hc hinf
  have hn : ¬ ((items.length : Int) < 1) := by
    intro hlt
    simp at hi
    omega
  simp only [list.Model.CursorUp, list.Model.Index, paginator.Model.ItemsOnPage,
    paginator.Model.GetSliceBounds, list.Model.VisibleItems]
  simp [hn]
  omega

/-- With infinite scrolling, `down` on the last item selects the first one. -/
theorem list.Model.Update_down_at_last (l : list.Model) (h : l.wf)
    (hinf : l.InfiniteScrolling = true) (hlast : l.Index = (l.items.length : Int) - 1) :
    (l.Update .down).Index = 0 := by
  have hi : l.items.length ≠ 0 := by
    have := l.Index_range h
    omega
  rw [l.Update_eq_handleKey .down h]
  simp only [list.Model.handleKey]
  rw [if_pos hi]
  obtain ⟨items, cursor, ⟨Page, PerPage, TotalPages⟩, width, inf⟩ := l
  simp only [list.Model.wf, paginator.Model.ItemsOnPage, paginator.Model.GetSliceBounds] at h
  obtain ⟨h1, h2, h3, h4, h5, h6, h7⟩ := h
  simp only [list.Model.Index] at hlast
  simp only at hinf
  have e1 : (TotalPages - 1) * PerPage = TotalPages * PerPage - PerPage := by ring
  have e2 : (Page + 1) * PerPage = Page * PerPage + PerPage := by ring
  have e4 : 0 ≤ Page * PerPage := mul_nonneg h2 (by omega)
  have hn : ¬ ((items.length : Int) < 1) := by
    intro hlt
    simp at hi
    omega
  simp only [hn, if_false] at h7
  have hP : Page = TotalPages - 1 := by
    by_contra hne
    have : (Page + 1) * PerPage ≤ (TotalPages - 1) * PerPage :=
      mul_le_mul_of_nonneg_right (by omega) (by omega)
    omega
  subst hinf
  simp only [list.Model.CursorDown, list.Model.Index, paginator.Model.ItemsOnPage,
    paginator.Model.GetSliceBounds, list.Model.VisibleItems, paginator.Model.OnLastPage,
    paginator.Model.NextPage]
  split_ifs <;> simp_all <;> omega

/-- While suggestions are shown, `up` and `down` only reach the list. -/
theorem model.Update_up_down {TI : Type} (ti : textinput TI) (m : model TI) (k : KeyMsg)
    (hk : k = .up ∨ k = .down) (hshow : m.showSuggestions = true) :
    (m.Update ti (.KeyMsg k)).m = { m with suggestionsList := m.suggestionsList.Update k } := by
  rcases hk with rfl | rfl <;> simp [model.Update, hshow]

/-- A run of `up` and `down` keys keeps the suggestions shown, the list
well-formed and its items the same. -/
theorem model.run_up_down {TI : Type} (ti : textinput TI) (ks : List KeyMsg)
    (hks : ∀ k ∈ ks, k = .up ∨ k = .down) :
    ∀ m : model TI, m.showSuggestions = true → m.suggestionsList.wf →
      (m.run ti (ks.map Msg.KeyMsg)).showSuggestions = true ∧
      (m.run ti (ks.map Msg.KeyMsg)).suggestionsList.wf ∧
      (m.run ti (ks.map Msg.KeyMsg)).suggestionsList.items = m.suggestionsList.items := by
  induction ks with
  | nil =>
    intro m hshow hwf
    exact ⟨hshow, hwf, rfl⟩
  | cons k ks ih =>
    intro m hshow hwf
    have hk := hks k (List.mem_cons_self k ks)
    have hstep := m.Update_up_down ti k hk hshow
    have hw := m.suggestionsList.wf_Update k hwf
    have hrun : m.run ti ((k :: ks).map Msg.KeyMsg)
        = ({ m with suggestionsList := m.suggestionsList.Update k } : model TI).run ti
            (ks.map Msg.KeyMsg) := by
      simp only [model.run, List.map_cons, List.foldl_cons, hstep]
    rw [hrun]
    have := ih (fun k' hk' => hks k' (List.mem_cons_of_mem k hk'))
      { m with suggestionsList := m.suggestionsList.Update k } hshow hw.1
    exact ⟨this.1, this.2.1, this.2.2.trans hw.2.1⟩

/-- The method `SetItems` makes the list well-formed and keeps its index, when
the page size is positive and the index is an index of the new items. -/
theorem list.Model.wf_SetItems (l : list.Model) (i : List wordItem)
    (hP : 1 ≤ l.Paginator.PerPage) (h0 : 0 ≤ l.Index) (hlt : l.Index < i.length) :
    (l.SetItems i).wf ∧ (l.SetItems i).Index = l.Index := by
  obtain ⟨items, cursor, ⟨Page, PerPage, TotalPages⟩, width, inf⟩ := l
  simp only [list.Model.Index] at h0 hlt
  simp only at hP
  have hn : ¬ ((i.length : Int) < 1) := by omega
  simp only [list.Model.SetItems, list.Model.updatePagination, paginator.Model.SetTotalPages,
    list.Model.Index, list.Model.wf, paginator.Model.ItemsOnPage, paginator.Model.GetSliceBounds,
    list.Model.VisibleItems, hn, if_false]
  have t1 : (i.length : Int).tdiv PerPage = (i.length : Int) / PerPage :=
    Int.tdiv_eq_ediv (by omega) (by omega)
  have t2 : (i.length : Int).tmod PerPage = (i.length : Int) % PerPage :=
    Int.tmod_eq_emod (by omega) (by omega)
  have t3 : (Page * PerPage + cursor).tdiv PerPage = (Page * PerPage + cursor) / PerPage :=
    Int.tdiv_eq_ediv h0 (by omega)
  have t4 : (Page * PerPage + cursor).tmod PerPage = (Page * PerPage + cursor) % PerPage :=
    Int.tmod_eq_emod h0 (by omega)
  simp only [t1, t2, t3, t4]
  clear t1 t2 t3 t4
  have f1 := Int.ediv_add_emod (i.length : Int) PerPage
  have f2 := Int.emod_nonneg (i.length : Int) (show PerPage ≠ 0 by omega)
  have f3 := Int.emod_lt_of_pos (i.length : Int) (show 0 < PerPage by omega)
  have g1 := Int.ediv_add_emod (Page * PerPage + cursor) PerPage
  have g2 := Int.emod_nonneg (Page * PerPage + cursor) (show PerPage ≠ 0 by omega)
  have g3 := Int.emod_lt_of_pos (Page * PerPage + cursor) (show 0 < PerPage by omega)
  have f4 : 0 ≤ (i.length : Int) / PerPage := Int.ediv_nonneg (by omega) (by omega)
  have g4 : 0 ≤ (Page * PerPage + cursor) / PerPage := Int.ediv_nonneg h0 (by omega)
  generalize (i.length : Int) / PerPage = q at *
  generalize (i.length : Int) % PerPage = r at *
  generalize (Page * PerPage + cursor) / PerPage = a at *
  generalize (Page * PerPage + cursor) % PerPage = b at *
  generalize Page * PerPage + cursor = idx at *
  generalize (i.length : Int) = n at *
  have c1 : a * PerPage = PerPage * a := mul_comm _ _
  obtain ⟨T, hT⟩ : ∃ T, T = (if r > 0 then q + 1 else q) := ⟨_, rfl⟩
  simp only [← hT]
  have hTP : T * PerPage = PerPage * q + (if r > 0 then PerPage else 0) := by
    rw [hT]
    split_ifs <;> ring
  have hT1 : (T - 1) * PerPage = T * PerPage - PerPage := by ring
  have hbound : (T - 1) * PerPage < n ∧ n ≤ T * PerPage := by
    rw [hT1, hTP]
    split_ifs <;> omega
  have haT : a * PerPage < T * PerPage := by omega
  have haT' : a < T := lt_of_mul_lt_mul_right haT (by omega)
  have hPg : (if a ≥ T - 1 then max 0 (T - 1) else a) = a := by
    split_ifs with h
    · rw [max_eq_right (by omega)]
      omega
    · rfl
  rw [hPg]
  refine ⟨⟨hP, g4, haT', hbound.1, hbound.2, g2, ?_⟩, ?_⟩
  · rw [min_def]
    split_ifs <;> omega
  · omega

/-- The first non-empty response of a session makes the suggestions shown
and the list well-formed, with the first item selected and infinite
scrolling on, for any positive page size. -/
theorem initialModel_first_response {TI : Type} (ti : textinput TI) (perPage : Int)
    (hP : 1 ≤ perPage) (title description : String) (suggester : wordSuggester)
    (words : List WordsResponse) (hne : words ≠ []) :
    ((initialModel ti perPage title description suggester).Update ti
        (.suggestionResponse words)).m.showSuggestions = true ∧
    ((initialModel ti perPage title description suggester).Update ti
        (.suggestionResponse words)).m.suggestionsList.wf ∧
    ((initialModel ti perPage title description suggester).Update ti
        (.suggestionResponse words)).m.suggestionsList.InfiniteScrolling = true ∧
    ((initialModel ti perPage title description suggester).Update ti
        (.suggestionResponse words)).m.suggestionsList.Index = 0 := by
  have hlen : 0 < (words.map wordItem.ofResponse).length := by
    cases words with
    | nil => exact absurd rfl hne
    | cons w ws => simp
  have hidx : (list.New perPage).Index = 0 := by
    simp [list.New, list.Model.Index]
  have h := (list.New perPage).wf_SetItems (words.map wordItem.ofResponse) hP
    (by rw [hidx]) (by rw [hidx]; exact_mod_cast hlen)
  refine ⟨?_, h.1, ?_, ?_⟩
  · cases words with
    | nil => exact absurd rfl hne
    | cons w ws => simp [model.Update]
  · simp [model.Update, initialModel, list.New, list.Model.SetItems, list.Model.updatePagination]
  · exact h.2.trans hidx

/-! ## Theorems: keys, responses and topics -/

/-- The `enter` case of `Update` in terms of `acceptSelection`. -/
theorem model.Update_enter {TI : Type} (ti : textinput TI) (m : model TI) :
    m.Update ti (.KeyMsg .enter) =
      if TrimSpace (ti.Value (m.acceptSelection ti).textInput) ≠ "" then
        match (m.acceptSelection ti).suggester
            (TrimSpace (ti.Value (m.acceptSelection ti).textInput)) with
        | .ok results =>
          { m := { m.acceptSelection ti with
                     finalResults := results, showResults := true, showSuggestions := false }
            cmds := []
            calls := [TrimSpace (ti.Value (m.acceptSelection ti).textInput)] }
        | .error _ =>
          { m := m.acceptSelection ti
            cmds := []
            calls := [TrimSpace (ti.Value (m.acceptSelection ti).textInput)] }
      else { m := m.acceptSelection ti, cmds := [], calls := [] } := by
  rfl

/-- What `acceptSelection` changes: nothing but the text input. -/
theorem model.acceptSelection_fields {TI : Type} (ti : textinput TI) (m : model TI) :
    (m.acceptSelection ti).suggester = m.suggester ∧
    (m.acceptSelection ti).finalResults = m.finalResults ∧
    (m.acceptSelection ti).showResults = m.showResults ∧
    (m.acceptSelection ti).showSuggestions = m.showSuggestions ∧
    (m.acceptSelection ti).suggestionsList = m.suggestionsList ∧
    (m.acceptSelection ti).quitting = m.quitting := by
  unfold model.acceptSelection
  split_ifs
  · cases m.suggestionsList.SelectedItem <;> exact ⟨rfl, rfl, rfl, rfl, rfl, rfl⟩
  · exact ⟨rfl, rfl, rfl, rfl, rfl, rfl⟩

/-- Without a selected suggestion `acceptSelection` does nothing. -/
theorem model.acceptSelection_of_none {TI : Type} (ti : textinput TI) (m : model TI)
    (h : m.showSuggestions = false ∨ m.suggestionsList.Items = [] ∨
      m.suggestionsList.SelectedItem = none) :
    m.acceptSelection ti = m := by
  unfold model.acceptSelection
  rcases h with h | h | h
  · simp [h]
  · simp [h]
  · split_ifs
    · rw [h]
    · rfl

/-- With a selected suggestion `acceptSelection` sets the text input to its
word. -/
theorem model.acceptSelection_of_some {TI : Type} (ti : textinput TI) (m : model TI)
    (selected : wordItem) (hshow : m.showSuggestions = true)
    (hsel : m.suggestionsList.SelectedItem = some selected) :
    (m.acceptSelection ti).textInput = ti.SetValue m.textInput selected.word := by
  have hlen : m.suggestionsList.Items.length > 0 := by
    by_contra hc
    have h0 : m.suggestionsList.items.length = 0 := by
      simp only [list.Model.Items] at hc
      omega
    simp [list.Model.SelectedItem, list.Model.VisibleItems, h0] at hsel
  unfold model.acceptSelection
  rw [if_pos ⟨hshow, hlen⟩, hsel]

/-- C11. Enter on empty input: in every session state where no suggestion is
selected (suggestions are not shown, or the list is empty, or the list has no
selected item) and the input text is empty after trimming, the key `enter`
returns the session state as it was, returns no command and does not call the
suggester. -/
theorem Enter_on_empty_input {TI : Type} (ti : textinput TI) (m : model TI)
    (hsel : m.showSuggestions = false ∨ m.suggestionsList.Items = [] ∨
      m.suggestionsList.SelectedItem = none)
    (hempty : TrimSpace (ti.Value m.textInput) = "") :
    (m.Update ti (.KeyMsg .enter)).m = m ∧
    (m.Update ti (.KeyMsg .enter)).cmds = [] ∧
    (m.Update ti (.KeyMsg .enter)).calls = [] := by
  rw [model.Update_enter, model.acceptSelection_of_none ti m hsel]
  simp [hempty]

/-- C11 on the initial session and on a session whose input is two blanks. -/
theorem Enter_on_empty_input_witness :
    ((initialModel lineInput 6 "Phoenician" "" echoSuggester).Update lineInput
      (.KeyMsg .enter)).calls = [] ∧
    ((({ initialModel lineInput 6 "Phoenician" "" echoSuggester with textInput := "  " } :
        model String).Update lineInput (.KeyMsg .enter)).m.showResults = false) :=
  ⟨(Enter_on_empty_input lineInput (initialModel lineInput 6 "Phoenician" "" echoSuggester)
      (Or.inl rfl) (by decide)).2.2,
   by
    rw [(Enter_on_empty_input lineInput
      ({ initialModel lineInput 6 "Phoenician" "" echoSuggester with textInput := "  " } :
        model String) (Or.inl rfl) (by decide)).1]
    rfl⟩

/-- A text input that keeps at most 156 characters returns a word of at most
156 characters as it was set. -/
theorem limitedInput_SetValue (t s : String) (h : s.length ≤ 156) :
    limitedInput.Value (limitedInput.SetValue t s) = s := by
  show String.mk (s.data.take 156) = s
  rw [List.take_of_length_le h]

set_option maxRecDepth 100000 in
/-- C12, the claim as stated fails. The text input of `initialModel` keeps at
most 156 characters. With a suggestion of 157 letters selected, `enter` calls
the suggester with the first 156 letters, which is neither the word of the
selected suggestion nor its trimmed text. -/
theorem Enter_on_long_word_truncates :
    sessionLongWord.showSuggestions = true ∧
    sessionLongWord.suggestionsList.SelectedItem = some { word := longWord, score := 1 } ∧
    (sessionLongWord.Update limitedInput (.KeyMsg .enter)).calls
      = [String.mk (List.replicate 156 'a')] ∧
    (sessionLongWord.Update limitedInput (.KeyMsg .enter)).calls ≠ [longWord] ∧
    (sessionLongWord.Update limitedInput (.KeyMsg .enter)).calls ≠ [TrimSpace longWord] := by
  decide

/-- C12, amended. Enter commit outcome: in every session state whose input
text, after the selected suggestion (if suggestions are shown and one is
selected) has been put into the text input, is non-empty after trimming, the
key `enter` calls the suggester exactly once, with that trimmed text, and
returns no command. If the call succeeds with `r`, then `finalResults = r`
(same order), `showResults = true` and `showSuggestions = false`; if it fails,
`showResults`, `showSuggestions` and `finalResults` are unchanged. With a
selected suggestion the text is the one `SetValue` stored for its word, so
the call is made with the trimmed word whenever the text input returns that
word as it was set; without one it is the input text of the state. -/
theorem Enter_commit {TI : Type} (ti : textinput TI) (m : model TI)
    (hq : TrimSpace (ti.Value (m.acceptSelection ti).textInput) ≠ "") :
    (m.Update ti (.KeyMsg .enter)).calls
      = [TrimSpace (ti.Value (m.acceptSelection ti).textInput)] ∧
    (m.Update ti (.KeyMsg .enter)).cmds = [] ∧
    (∀ r, m.suggester (TrimSpace (ti.Value (m.acceptSelection ti).textInput)) = .ok r →
      (m.Update ti (.KeyMsg .enter)).m.finalResults = r ∧
      (m.Update ti (.KeyMsg .enter)).m.showResults = true ∧
      (m.Update ti (.KeyMsg .enter)).m.showSuggestions = false) ∧
    (∀ e, m.suggester (TrimSpace (ti.Value (m.acceptSelection ti).textInput)) = .error e →
      (m.Update ti (.KeyMsg .enter)).m.finalResults = m.finalResults ∧
      (m.Update ti (.KeyMsg .enter)).m.showResults = m.showResults ∧
      (m.Update ti (.KeyMsg .enter)).m.showSuggestions = m.showSuggestions) ∧
    (∀ selected, m.showSuggestions = true → m.suggestionsList.SelectedItem = some selected →
      (m.acceptSelection ti).textInput = ti.SetValue m.textInput selected.word ∧
      (m.Update ti (.KeyMsg .enter)).calls
        = [TrimSpace (ti.Value (ti.SetValue m.textInput selected.word))] ∧
      (ti.Value (ti.SetValue m.textInput selected.word) = selected.word →
        (m.Update ti (.KeyMsg .enter)).calls = [TrimSpace selected.word])) ∧
    ((m.showSuggestions = false ∨ m.suggestionsList.Items = [] ∨
        m.suggestionsList.SelectedItem = none) →
      (m.Update ti (.KeyMsg .enter)).calls = [TrimSpace (ti.Value m.textInput)]) := by
  have hs := (m.acceptSelection_fields ti).1
  have hcalls : (m.Update ti (.KeyMsg .enter)).calls
      = [TrimSpace (ti.Value (m.acceptSelection ti).textInput)] := by
    rw [model.Update_enter, if_pos hq]
    cases (m.acceptSelection ti).suggester
      (TrimSpace (ti.Value (m.acceptSelection ti).textInput)) <;> rfl
  refine ⟨hcalls, ?_, ?_, ?_, ?_, ?_⟩
  · rw [model.Update_enter, if_pos hq]
    cases (m.acceptSelection ti).suggester
      (TrimSpace (ti.Value (m.acceptSelection ti).textInput)) <;> rfl
  · intro r hr
    rw [← hs] at hr
    rw [model.Update_enter, if_pos hq, hr]
    exact ⟨rfl, rfl, rfl⟩
  · intro e he
    rw [← hs] at he
    rw [model.Update_enter, if_pos hq, he]
    have hf := m.acceptSelection_fields ti
    exact ⟨hf.2.1, hf.2.2.1, hf.2.2.2.1⟩
  · intro selected hshow hsel
    have ht := m.acceptSelection_of_some ti selected hshow hsel
    refine ⟨ht, ?_, fun hlaw => ?_⟩
    · rw [hcalls, ht]
    · rw [hcalls, ht, hlaw]
  · intro hnone
    rw [hcalls, m.acceptSelection_of_none ti hnone]

/-- C12, amended, on the session showing `sea` and `seal` with `sea` selected
(`enter` calls the suggester once with `sea` and commits its result), on the
session whose selected suggestion is ` tea ` with blanks (the call is made
with `tea`), and on a session with the input `  sea ` and no suggestion (the
call is made with `sea`). -/
theorem Enter_commit_witness :
    (sessionTwoWords.Update lineInput (.KeyMsg .enter)).calls = ["sea"] ∧
    (sessionTwoWords.Update lineInput (.KeyMsg .enter)).m.finalResults
      = [{ Word := "sea", Score := 1 }] ∧
    (sessionTwoWords.Update lineInput (.KeyMsg .enter)).m.showResults = true ∧
    (sessionPaddedWord.Update lineInput (.KeyMsg .enter)).calls = ["tea"] ∧
    (({ initialModel lineInput 6 "Phoenician" "" echoSuggester with textInput := "  sea " } :
        model String).Update lineInput (.KeyMsg .enter)).calls = ["sea"] :=
  ⟨(Enter_commit lineInput sessionTwoWords (by decide)).1,
   ((Enter_commit lineInput sessionTwoWords (by decide)).2.2.1
      [{ Word := "sea", Score := 1 }] rfl).1,
   ((Enter_commit lineInput sessionTwoWords (by decide)).2.2.1
      [{ Word := "sea", Score := 1 }] rfl).2.1,
   ((Enter_commit lineInput sessionPaddedWord (by decide)).2.2.2.2.1
      { word := " tea ", score := 1 } (by decide) (by decide)).2.2 rfl,
   (Enter_commit lineInput
      ({ initialModel lineInput 6 "Phoenician" "" echoSuggester with textInput := "  sea " } :
        model String) (by decide)).2.2.2.2.2 (Or.inl rfl)⟩

/-- Handling a response stores its words as items, shows the suggestions
exactly when there is a word, and touches nothing but the list and
`showSuggestions`. -/
theorem model.Update_suggestionResponse {TI : Type} (ti : textinput TI) (m : model TI)
    (words : List WordsResponse) :
    (m.Update ti (.suggestionResponse words)).m.suggestionsList
      = m.suggestionsList.SetItems (words.map wordItem.ofResponse) ∧
    (m.Update ti (.suggestionResponse words)).m.showSuggestions = decide (words ≠ []) ∧
    (m.Update ti (.suggestionResponse words)).m.textInput = m.textInput ∧
    (m.Update ti (.suggestionResponse words)).m.finalResults = m.finalResults ∧
    (m.Update ti (.suggestionResponse words)).m.showResults = m.showResults ∧
    (m.Update ti (.suggestionResponse words)).m.quitting = m.quitting ∧
    (m.Update ti (.suggestionResponse words)).cmds = [] ∧
    (m.Update ti (.suggestionResponse words)).calls = [] := by
  refine ⟨rfl, ?_, rfl, rfl, rfl, rfl, rfl, rfl⟩
  cases words <;> simp [model.Update]

/-- Items built from response words give the words back. -/
theorem map_toResponse_ofResponse (words : List WordsResponse) :
    (words.map wordItem.ofResponse).map wordItem.toResponse = words := by
  induction words with
  | nil => rfl
  | cons w ws ih =>
    simp only [List.map_cons, ih]
    rfl

/-- The selected item of a well-formed list is the item at its index. -/
theorem list.Model.SelectedItem_of_wf (l : list.Model) (h : l.wf) :
    l.SelectedItem = l.items.get? l.Index.toNat ∧ l.SelectedItem ≠ none := by
  have hr := l.Index_range h
  have hsel : l.SelectedItem = l.items.get? l.Index.toNat := by
    have hc : ¬ (l.Index < 0 ∨ l.items.length = 0 ∨ (l.items.length : Int) ≤ l.Index) := by
      omega
    simp only [list.Model.SelectedItem, list.Model.VisibleItems]
    rw [if_neg hc]
  refine ⟨hsel, ?_⟩
  rw [hsel]
  intro hnone
  rw [List.get?_eq_none] at hnone
  omega

/-- C13, the claim as stated fails. With two suggestions shown and the second
one selected, a response with two other words leaves index 1 selected: the
selected item is the second word of the response, not the first. -/
theorem response_keeps_selected_index :
    sessionSecondSelected.suggestionsList.Index = 1 ∧
    (sessionSecondSelected.Update lineInput
      (.suggestionResponse [{ Word := "tea", Score := 5 }, { Word := "team", Score := 4 }])
      ).m.suggestionsList.Index = 1 ∧
    (sessionSecondSelected.Update lineInput
      (.suggestionResponse [{ Word := "tea", Score := 5 }, { Word := "team", Score := 4 }])
      ).m.suggestionsList.SelectedItem = some { word := "team", score := 4 } := by
  decide

/-- C13, amended. Applying a suggestion result: for every session state and
every sequence `ws` of (word, score) pairs, handling `suggestionResponse{ws}`
makes the suggestion list equal to `ws` item for item in the same order
(nothing re-sorted or dropped, scores preserved) and sets `showSuggestions` to
true exactly when `ws` is non-empty. The selection is not reset: when the
index selected before is an index of `ws` (and the page size is positive), the
same index is selected afterwards, so index 0 is selected when it was selected
before. -/
theorem suggestionResponse_applied {TI : Type} (ti : textinput TI) (m : model TI)
    (ws : List WordsResponse) :
    (m.Update ti (.suggestionResponse ws)).m.suggestionsList.Items
      = ws.map wordItem.ofResponse ∧
    (m.Update ti (.suggestionResponse ws)).m.suggestionsList.Items.map wordItem.toResponse
      = ws ∧
    ((m.Update ti (.suggestionResponse ws)).m.showSuggestions = true ↔ ws ≠ []) ∧
    (1 ≤ m.suggestionsList.Paginator.PerPage → 0 ≤ m.suggestionsList.Index →
      m.suggestionsList.Index < ws.length →
      (m.Update ti (.suggestionResponse ws)).m.suggestionsList.Index
        = m.suggestionsList.Index ∧
      (m.Update ti (.suggestionResponse ws)).m.suggestionsList.SelectedItem
        = (ws.map wordItem.ofResponse).get? m.suggestionsList.Index.toNat ∧
      (m.Update ti (.suggestionResponse ws)).m.suggestionsList.wf) := by
  obtain ⟨hl, hshow, -⟩ := m.Update_suggestionResponse ti ws
  have hitems : (m.Update ti (.suggestionResponse ws)).m.suggestionsList.Items
      = ws.map wordItem.ofResponse := by
    rw [hl]
    exact list.Model.Items_SetItems _ _
  refine ⟨hitems, ?_, ?_, ?_⟩
  · rw [hitems]
    exact map_toResponse_ofResponse ws
  · rw [hshow]
    simp
  · intro hP h0 hlt
    have hw := m.suggestionsList.wf_SetItems (ws.map wordItem.ofResponse) hP h0
      (by simpa using hlt)
    rw [hl]
    refine ⟨hw.2, ?_, hw.1⟩
    have hs := (list.Model.SelectedItem_of_wf _ hw.1).1
    rw [hs, hw.2]
    have : (m.suggestionsList.SetItems (ws.map wordItem.ofResponse)).items
        = ws.map wordItem.ofResponse := list.Model.Items_SetItems _ _
    rw [this]

/-- C13, amended, on the session with the second of two suggestions selected
and on the initial session. -/
theorem suggestionResponse_applied_witness :
    (sessionSecondSelected.Update lineInput
      (.suggestionResponse [{ Word := "tea", Score := 5 }, { Word := "team", Score := 4 }])
      ).m.suggestionsList.Index = sessionSecondSelected.suggestionsList.Index ∧
    ((initialModel lineInput 6 "Phoenician" "" echoSuggester).Update lineInput
      (.suggestionResponse [{ Word := "tea", Score := 5 }])).m.suggestionsList.SelectedItem
      = some { word := "tea", score := 5 } :=
  ⟨((suggestionResponse_applied lineInput sessionSecondSelected
      [{ Word := "tea", Score := 5 }, { Word := "team", Score := 4 }]).2.2.2
      (by decide) (by decide) (by decide)).1,
   ((suggestionResponse_applied lineInput (initialModel lineInput 6 "Phoenician" "" echoSuggester)
      [{ Word := "tea", Score := 5 }]).2.2.2 (by decide) (by decide) (by decide)).2.1⟩

/-- C14. Swallowed suggestion failures: whenever the `suggest` call of a
request fails, with whatever error, the message `getSuggestions` produces is a
`suggestionResponse` with no words, and applying it to any session state
empties the suggestion list and sets `showSuggestions = false`, leaving the
input text, `finalResults` and `showResults` alone. The message of a request
is a `suggestionResponse` in every case, so no error reaches the session. -/
theorem suggestion_failure_swallowed {TI : Type} (ti : textinput TI) (m₀ m : model TI)
    (query : String) (err : Error) (hfail : m₀.suggester query = .error err) :
    m₀.getSuggestions query = Msg.suggestionResponse [] ∧
    (m.Update ti (m₀.getSuggestions query)).m.suggestionsList.Items = [] ∧
    (m.Update ti (m₀.getSuggestions query)).m.showSuggestions = false ∧
    (m.Update ti (m₀.getSuggestions query)).m.textInput = m.textInput ∧
    (m.Update ti (m₀.getSuggestions query)).m.finalResults = m.finalResults ∧
    (m.Update ti (m₀.getSuggestions query)).m.showResults = m.showResults ∧
    (∀ q, ∃ words, m₀.getSuggestions q = Msg.suggestionResponse words) := by
  have hmsg : m₀.getSuggestions query = Msg.suggestionResponse [] := by
    simp [model.getSuggestions, hfail]
  obtain ⟨hl, hshow, ht, hf, hr, -⟩ := m.Update_suggestionResponse ti []
  refine ⟨hmsg, ?_, ?_, ?_, ?_, ?_, ?_⟩
  · rw [hmsg, hl]
    exact list.Model.Items_SetItems _ _
  · rw [hmsg, hshow]
    simp
  · rw [hmsg, ht]
  · rw [hmsg, hf]
  · rw [hmsg, hr]
  · intro q
    cases h : m₀.suggester q with
    | error e => exact ⟨[], by simp [model.getSuggestions, h]⟩
    | ok ws => exact ⟨ws, by simp [model.getSuggestions, h]⟩

/-- C14 for `means` with `max = 0`, whose `suggest` fails on `"sea"`: the
response empties the two suggestions shown. -/
theorem suggestion_failure_swallowed_witness :
    (sessionTwoWords.Update lineInput
      ((initialModel lineInput 6 "Phoenician" ""
        (fun q => ((meansCommand.mk 0 "").suggest quietEnv q).result)).getSuggestions "sea")
      ).m.suggestionsList.Items = [] ∧
    (sessionTwoWords.Update lineInput
      ((initialModel lineInput 6 "Phoenician" ""
        (fun q => ((meansCommand.mk 0 "").suggest quietEnv q).result)).getSuggestions "sea")
      ).m.showSuggestions = false :=
  ⟨(suggestion_failure_swallowed lineInput
      (initialModel lineInput 6 "Phoenician" ""
        (fun q => ((meansCommand.mk 0 "").suggest quietEnv q).result))
      sessionTwoWords "sea" Error.ErrTooManyResults rfl).2.1,
   (suggestion_failure_swallowed lineInput
      (initialModel lineInput 6 "Phoenician" ""
        (fun q => ((meansCommand.mk 0 "").suggest quietEnv q).result))
      sessionTwoWords "sea" Error.ErrTooManyResults rfl).2.2.1⟩

/-- The text input step, written out: the key goes to the text input; with a
trimmed text of at least three bytes a request for it is returned, otherwise
the suggestions are cleared. -/
theorem model.updateTextInput_eq {TI : Type} (ti : textinput TI) (m : model TI) (msg : KeyMsg) :
    m.updateTextInput ti msg =
      if len (TrimSpace (ti.Value (ti.Update m.textInput msg))) ≥ 3 then
        { m := { m with textInput := ti.Update m.textInput msg }
          cmds := [Cmd.widget,
            Cmd.getSuggestions (TrimSpace (ti.Value (ti.Update m.textInput msg)))]
          calls := [] }
      else
        { m := { m with textInput := ti.Update m.textInput msg, showSuggestions := false,
                        suggestionsList := m.suggestionsList.SetItems [] }
          cmds := [Cmd.widget]
          calls := [] } := by
  rfl

/-- The text input step leaves `showResults` alone. -/
theorem model.updateTextInput_showResults {TI : Type} (ti : textinput TI) (m : model TI)
    (msg : KeyMsg) : (m.updateTextInput ti msg).m.showResults = m.showResults := by
  rw [model.updateTextInput_eq]
  split_ifs <;> rfl

/-- No message turns `showResults` off. -/
theorem model.Update_showResults {TI : Type} (ti : textinput TI) (m : model TI) (msg : Msg)
    (h : m.showResults = true) : (m.Update ti msg).m.showResults = true := by
  cases msg with
  | KeyMsg k =>
    cases k with
    | ctrlC => exact h
    | enter =>
      rw [model.Update_enter]
      have hf := (m.acceptSelection_fields ti).2.2.1
      split_ifs
      · cases (m.acceptSelection ti).suggester
          (TrimSpace (ti.Value (m.acceptSelection ti).textInput)) with
        | ok r => rfl
        | error e => exact hf.trans h
      · exact hf.trans h
    | tab =>
      simp only [model.Update]
      split_ifs
      · cases m.suggestionsList.SelectedItem with
        | some sel => exact h
        | none => exact (m.updateTextInput_showResults ti .tab).trans h
      · exact (m.updateTextInput_showResults ti .tab).trans h
    | up =>
      simp only [model.Update]
      split_ifs
      · exact h
      · exact (m.updateTextInput_showResults ti .up).trans h
    | down =>
      simp only [model.Update]
      split_ifs
      · exact h
      · exact (m.updateTextInput_showResults ti .down).trans h
    | other key => exact (m.updateTextInput_showResults ti (.other key)).trans h
  | suggestionResponse words => exact h
  | WindowSizeMsg w hgt => exact h
  | other => exact h

/-- C19. Committed results are permanent: for every session state with
`showResults = true` and every message (any key, `ctrl+c` included, a
`suggestionResponse`, a window resize, anything else), the state `Update`
returns has `showResults = true`; the same holds after any sequence of
messages, so nothing brings the session back from the results view. -/
theorem showResults_permanent {TI : Type} (ti : textinput TI) (m : model TI)
    (h : m.showResults = true) :
    (∀ msg : Msg, (m.Update ti msg).m.showResults = true) ∧
    (∀ msgs : List Msg, (m.run ti msgs).showResults = true) := by
  refine ⟨fun msg => m.Update_showResults ti msg h, fun msgs => ?_⟩
  induction msgs generalizing m with
  | nil => exact h
  | cons msg msgs ih =>
    simp only [model.run, List.foldl_cons]
    exact ih (m.Update ti msg).m (m.Update_showResults ti msg h)

/-- C19 on the session that committed `sea`: typing, `enter` on an empty
selection and a late response leave the results shown. -/
theorem showResults_permanent_witness :
    ((sessionTwoWords.Update lineInput (.KeyMsg .enter)).m.run lineInput
      [.KeyMsg (.other "x"), .KeyMsg .enter, .suggestionResponse [], .KeyMsg .up]).showResults
      = true :=
  (showResults_permanent lineInput (sessionTwoWords.Update lineInput (.KeyMsg .enter)).m
    (by decide)).2 [.KeyMsg (.other "x"), .KeyMsg .enter, .suggestionResponse [], .KeyMsg .up]

/-- No piece of `splitOnP` holds an element that satisfies the predicate. -/
theorem not_of_mem_splitOnP {α : Type} (p : α → Bool) (xs : List α) :
    ∀ l ∈ xs.splitOnP p, ∀ x ∈ l, ¬ p x = true := by
  induction xs with
  | nil =>
    intro l hl x hx
    simp at hl
    subst hl
    simp at hx
  | cons a as ih =>
    intro l hl x hx
    rw [List.splitOnP_cons] at hl
    by_cases ha : p a = true
    · rw [if_pos ha] at hl
      rcases List.mem_cons.mp hl with h | h
      · subst h
        simp at hx
      · exact ih l h x hx
    · rw [if_neg ha] at hl
      cases hsplit : as.splitOnP p with
      | nil => exact absurd hsplit (List.splitOnP_ne_nil p as)
      | cons hd tl =>
        rw [hsplit] at hl ih
        simp only [List.modifyHead_cons] at hl
        rcases List.mem_cons.mp hl with h | h
        · subst h
          rcases List.mem_cons.mp hx with h' | h'
          · rw [h']
            exact ha
          · exact ih hd (List.mem_cons_self hd tl) x h'
        · exact ih l (List.mem_cons_of_mem hd h) x hx

/-- The pieces of `Split` joined by the separator give the string back, and no
piece holds the separator. -/
theorem Split_pieces (s : String) (sep : Char) :
    [sep].intercalate ((Split s sep).map String.data) = s.data ∧
    ∀ piece ∈ Split s sep, sep ∉ piece.data := by
  constructor
  · have h : (Split s sep).map String.data = s.data.splitOn sep := by
      simp only [Split, List.map_map]
      have : (String.data ∘ String.mk) = id := by
        funext l
        rfl
      rw [this, List.map_id]
    rw [h]
    exact List.intercalate_splitOn s.data sep
  · intro piece hp hmem
    simp only [Split, List.mem_map] at hp
    obtain ⟨l, hl, rfl⟩ := hp
    have := not_of_mem_splitOnP (fun c => c == sep) s.data l hl sep hmem
    simp at this

/-- A non-empty result of `TrimSpace` neither starts nor ends with white
space. -/
theorem TrimSpace_ends (s : String) :
    (∀ c, (TrimSpace s).data.head? = some c → IsSpace c = false) ∧
    (∀ c, (TrimSpace s).data.getLast? = some c → IsSpace c = false) := by
  have hdata : (TrimSpace s).data = (s.data.dropWhile IsSpace).rdropWhile IsSpace := rfl
  rw [hdata]
  constructor
  · intro c hc
    have hpre : (s.data.dropWhile IsSpace).rdropWhile IsSpace <+: s.data.dropWhile IsSpace :=
      List.rdropWhile_prefix IsSpace _
    obtain ⟨t, ht⟩ := hpre
    have hhead : (s.data.dropWhile IsSpace).head? = some c := by
      rw [← ht]
      cases hl : (s.data.dropWhile IsSpace).rdropWhile IsSpace with
      | nil => rw [hl] at hc; simp at hc
      | cons a as =>
        rw [hl] at hc
        simpa using hc
    have := List.head?_dropWhile_not IsSpace s.data
    rw [hhead] at this
    simpa using this
  · intro c hc
    cases hl : (s.data.dropWhile IsSpace).rdropWhile IsSpace with
    | nil => rw [hl] at hc; simp at hc
    | cons a as =>
      have hne : (s.data.dropWhile IsSpace).rdropWhile IsSpace ≠ [] := by
        rw [hl]
        exact List.cons_ne_nil a as
      have hnot := List.rdropWhile_last_not IsSpace (s.data.dropWhile IsSpace) hne
      rw [List.getLast?_eq_getLast _ hne] at hc
      have hc' := Option.some.inj hc
      rw [hc'] at hnot
      simpa using hnot

/-- The method `parseTopics` computes the normalized topics of the
specification, the empty string included. -/
theorem parseTopics_eq_normalizedTopics (t : String) : parseTopics t = normalizedTopics t := by
  unfold parseTopics normalizedTopics
  split_ifs with h
  · subst h
    decide
  · rfl

/-- C16. Topic normalization: for every topics string `t`, `parseTopics(t)`
is the in-order list of the comma-separated pieces of `t` (joined by commas
they give `t` back, and none holds a comma), each trimmed, without the pieces
that are empty after trimming; so no topic is empty or starts or ends with
white space, and `parseTopics("")` is the empty list. `RelateToTopics` on that
list fails, and then with `ErrTooManyTopics`, exactly when the list has more
than 1000 entries, leaving the builder as it was; otherwise it stores the
list. -/
theorem parseTopics_normalizes (t : String) :
    parseTopics t = normalizedTopics t ∧
    parseTopics t = ((Split t ',').map TrimSpace).filter (fun piece => piece ≠ "") ∧
    [','].intercalate ((Split t ',').map String.data) = t.data ∧
    (∀ piece ∈ Split t ',', ',' ∉ piece.data) ∧
    (∀ topic ∈ parseTopics t, topic ≠ "" ∧
      (∀ c, topic.data.head? = some c → IsSpace c = false) ∧
      (∀ c, topic.data.getLast? = some c → IsSpace c = false)) ∧
    parseTopics "" = [] ∧
    (∀ api : APIProperties,
      ((api.RelateToTopics (parseTopics t)).2 = some Error.ErrTooManyTopics ↔
        (parseTopics t).length > 1000) ∧
      ((api.RelateToTopics (parseTopics t)).2 ≠ none ↔ (parseTopics t).length > 1000) ∧
      ((parseTopics t).length > 1000 → (api.RelateToTopics (parseTopics t)).1 = api) ∧
      (¬ (parseTopics t).length > 1000 →
        (api.RelateToTopics (parseTopics t)).1 = { api with topics := parseTopics t })) := by
  have heq := parseTopics_eq_normalizedTopics t
  refine ⟨heq, heq, (Split_pieces t ',').1, (Split_pieces t ',').2, ?_, by decide, ?_⟩
  · intro topic htopic
    rw [heq] at htopic
    simp only [normalizedTopics, List.mem_filter, List.mem_map] at htopic
    obtain ⟨⟨piece, -, rfl⟩, hne⟩ := htopic
    exact ⟨by simpa using hne, TrimSpace_ends piece⟩
  · intro api
    by_cases h : (parseTopics t).length > 1000
    · simp [RelateToTopics_of_many api _ h, h]
    · simp [RelateToTopics_of_few api _ h, h]

/-- C16 on the flag ` a, b ,,c `, and on the flag with 1001 topics. -/
theorem parseTopics_normalizes_witness :
    parseTopics " a, b ,,c " = ["a", "b", "c"] ∧
    (API.RelateToTopics (parseTopics manyTopics)).1 = API :=
  ⟨(parseTopics_normalizes " a, b ,,c ").2.1.trans (by decide),
   ((parseTopics_normalizes manyTopics).2.2.2.2.2.2 API).2.2.1
      (by rw [manyTopics_length]; decide)⟩

/-- C18. Bidirectional relation mapping: for each of the 12 concrete
relations `r`, `RelationFromCode(r.Code()) = r`; their codes are not the code
of the sentinel and do not decode to it; `Code` is injective on them; and the
codes are, in the order of the constants, `jja`, `jjb`, `syn`, `trg`, `ant`,
`spc`, `com`, `par`, `bga`, `bgb`, `hom`, `cns`. -/
theorem relation_table_bidirectional :
    (∀ r ∈ [NounByAdjective, AdjectiveByNoun, Synonyms, Trigger, Antonyms, KindOf, Comprises,
        PartOf, FrequentFollowers, FrequentPredecessors, Homophones, Consonant],
      RelationFromCode (RelationConstraint.Code r) = r ∧
      RelationConstraint.Code r ≠ RelationConstraint.Code None ∧
      RelationFromCode (RelationConstraint.Code r) ≠ None) ∧
    (∀ r ∈ [NounByAdjective, AdjectiveByNoun, Synonyms, Trigger, Antonyms, KindOf, Comprises,
        PartOf, FrequentFollowers, FrequentPredecessors, Homophones, Consonant],
      ∀ r₂ ∈ [NounByAdjective, AdjectiveByNoun, Synonyms, Trigger, Antonyms, KindOf, Comprises,
        PartOf, FrequentFollowers, FrequentPredecessors, Homophones, Consonant],
      RelationConstraint.Code r = RelationConstraint.Code r₂ → r = r₂) ∧
    [NounByAdjective, AdjectiveByNoun, Synonyms, Trigger, Antonyms, KindOf, Comprises,
        PartOf, FrequentFollowers, FrequentPredecessors, Homophones, Consonant].map
      RelationConstraint.Code
      = ["jja", "jjb", "syn", "trg", "ant", "spc", "com", "par", "bga", "bgb", "hom", "cns"] := by
  decide

/-- C18 at `Synonyms`. -/
theorem relation_table_bidirectional_witness :
    RelationFromCode (RelationConstraint.Code Synonyms) = Synonyms :=
  (relation_table_bidirectional.1 Synonyms (by decide)).1

/-- A sublist has at most as many UTF-8 bytes. -/
theorem utf8ByteSize_go_le_of_sublist {l₁ l₂ : List Char} (h : l₁.Sublist l₂) :
    String.utf8ByteSize.go l₁ ≤ String.utf8ByteSize.go l₂ := by
  induction h with
  | slnil => exact Nat.le_refl _
  | cons a _ ih =>
    simp only [String.utf8ByteSize.go]
    omega
  | cons₂ a _ ih =>
    simp only [String.utf8ByteSize.go]
    omega

/-- Trimming does not lengthen a string. -/
theorem len_TrimSpace_le (s : String) : len (TrimSpace s) ≤ len s := by
  have h1 : ((s.data.dropWhile IsSpace).rdropWhile IsSpace).Sublist s.data :=
    (List.rdropWhile_prefix IsSpace _).sublist.trans (List.dropWhile_sublist IsSpace)
  exact utf8ByteSize_go_le_of_sublist h1

/-- The items of the list after `SetItems` with no items. -/
theorem list.Model.Items_SetItems_nil (l : list.Model) : (l.SetItems []).Items = [] :=
  list.Model.Items_SetItems l []

/-- C15, the claim as stated fails. From `initialModel`: the keys `o`, `c`,
`e` issue a request for `oce`; `backspace` leaves the input `oc`; the response
to the request then arrives. The state reached has a non-empty suggestion
list and an input text of two bytes. -/
theorem nonempty_list_with_short_input :
    Cmd.getSuggestions "oce" ∈
      (((initialModel lineInput 6 "Phoenician" "" echoSuggester).run lineInput
          [.KeyMsg (.other "o"), .KeyMsg (.other "c")]).Update lineInput
            (.KeyMsg (.other "e"))).cmds ∧
    ((initialModel lineInput 6 "Phoenician" "" echoSuggester).run lineInput
        [.KeyMsg (.other "o"), .KeyMsg (.other "c"), .KeyMsg (.other "e"),
          .KeyMsg (.other "backspace"), sessionOce.getSuggestions "oce"]).suggestionsList.Items
      = [{ word := "oce", score := 1 }] ∧
    lineInput.Value
      ((initialModel lineInput 6 "Phoenician" "" echoSuggester).run lineInput
        [.KeyMsg (.other "o"), .KeyMsg (.other "c"), .KeyMsg (.other "e"),
          .KeyMsg (.other "backspace"), sessionOce.getSuggestions "oce"]).textInput = "oc" ∧
    len (lineInput.Value
      ((initialModel lineInput 6 "Phoenician" "" echoSuggester).run lineInput
        [.KeyMsg (.other "o"), .KeyMsg (.other "c"), .KeyMsg (.other "e"),
          .KeyMsg (.other "backspace"), sessionOce.getSuggestions "oce"]).textInput) = 2 := by
  decide

/-- C15, amended. The invariant holds right after a text edit: for every
session state and every text-edit key event, if the suggestion list of the
state after the event is non-empty, then the input text has length at least 3,
and so has its trimmed text. (A `suggestionResponse` fills the list whatever
the input text is, so the invariant does not hold in every reachable
state.) -/
theorem nonempty_list_after_text_edit {TI : Type} (ti : textinput TI) (m : model TI)
    (key : String)
    (hne : (m.Update ti (.KeyMsg (.other key))).m.suggestionsList.Items ≠ []) :
    len (ti.Value (m.Update ti (.KeyMsg (.other key))).m.textInput) ≥ 3 ∧
    len (TrimSpace (ti.Value (m.Update ti (.KeyMsg (.other key))).m.textInput)) ≥ 3 := by
  have hU : m.Update ti (.KeyMsg (.other key)) = m.updateTextInput ti (.other key) := rfl
  rw [hU, model.updateTextInput_eq] at hne ⊢
  by_cases h : len (TrimSpace (ti.Value (ti.Update m.textInput (.other key)))) ≥ 3
  · rw [if_pos h]
    exact ⟨Nat.le_trans h (len_TrimSpace_le _), h⟩
  · rw [if_neg h] at hne
    exact absurd (list.Model.Items_SetItems_nil _) hne

/-- C15, amended, on the session showing two suggestions with the input
`sea`, after the key `l`. -/
theorem nonempty_list_after_text_edit_witness :
    len (lineInput.Value
      (({ sessionTwoWords with textInput := "sea" } : model String).Update lineInput
        (.KeyMsg (.other "l"))).m.textInput) ≥ 3 :=
  (nonempty_list_after_text_edit lineInput
    ({ sessionTwoWords with textInput := "sea" } : model String) "l" (by decide)).1

/-- C17, the claim as stated fails. With the input `ab`, the key of a blank
makes the input text `ab ` of length 3, and no request is issued: the only
command returned is the one of the text input. -/
theorem blank_padded_input_issues_no_request :
    lineInput.Value sessionAb.textInput = "ab" ∧
    lineInput.Value (sessionAb.Update lineInput (.KeyMsg (.other " "))).m.textInput = "ab " ∧
    len (lineInput.Value (sessionAb.Update lineInput (.KeyMsg (.other " "))).m.textInput) = 3 ∧
    (sessionAb.Update lineInput (.KeyMsg (.other " "))).cmds = [Cmd.widget] := by
  decide

/-- C17, amended. Session-level debounce on text edits: for every session
state and every text-edit key event, once the text input has handled the key,
a suggestion request is issued if and only if the trimmed input text has
length at least 3, and the request is for the trimmed text; the suggester is
not called during the update. When the trimmed text is shorter than 3, and so
whenever the input text itself is shorter than 3, no request is issued, the
suggestion list is emptied and `showSuggestions` is false. -/
theorem text_edit_debounce {TI : Type} (ti : textinput TI) (m : model TI) (key : String) :
    (m.Update ti (.KeyMsg (.other key))).m.textInput = ti.Update m.textInput (.other key) ∧
    (m.Update ti (.KeyMsg (.other key))).calls = [] ∧
    (∀ q, Cmd.getSuggestions q ∈ (m.Update ti (.KeyMsg (.other key))).cmds ↔
      (q = TrimSpace (ti.Value (m.Update ti (.KeyMsg (.other key))).m.textInput) ∧
        len (TrimSpace (ti.Value (m.Update ti (.KeyMsg (.other key))).m.textInput)) ≥ 3)) ∧
    (len (TrimSpace (ti.Value (m.Update ti (.KeyMsg (.other key))).m.textInput)) < 3 →
      (m.Update ti (.KeyMsg (.other key))).m.suggestionsList.Items = [] ∧
      (m.Update ti (.KeyMsg (.other key))).m.showSuggestions = false) ∧
    (len (ti.Value (m.Update ti (.KeyMsg (.other key))).m.textInput) < 3 →
      (∀ q, Cmd.getSuggestions q ∉ (m.Update ti (.KeyMsg (.other key))).cmds) ∧
      (m.Update ti (.KeyMsg (.other key))).m.suggestionsList.Items = [] ∧
      (m.Update ti (.KeyMsg (.other key))).m.showSuggestions = false) := by
  have hU : m.Update ti (.KeyMsg (.other key)) = m.updateTextInput ti (.other key) := rfl
  rw [hU, model.updateTextInput_eq]
  by_cases h : len (TrimSpace (ti.Value (ti.Update m.textInput (.other key)))) ≥ 3
  · rw [if_pos h]
    refine ⟨rfl, rfl, ?_, ?_, ?_⟩
    · intro q
      simp only [List.mem_cons, List.mem_singleton, List.not_mem_nil, or_false]
      constructor
      · intro hq
        rcases hq with hq | hq
        · cases hq
        · exact ⟨Cmd.getSuggestions.inj hq, h⟩
      · intro hq
        exact Or.inr (by rw [hq.1])
    · intro hlt
      exact absurd h (by simpa using hlt)
    · intro hlt
      have := len_TrimSpace_le (ti.Value (ti.Update m.textInput (.other key)))
      have hlt' : len (ti.Value (ti.Update m.textInput (.other key))) < 3 := hlt
      omega
  · rw [if_neg h]
    have hnone : ∀ q, Cmd.getSuggestions q ∉ [Cmd.widget] := by
      intro q hq
      simp at hq
    refine ⟨rfl, rfl, ?_, ?_, ?_⟩
    · intro q
      constructor
      · intro hq
        exact absurd hq (hnone q)
      · intro hq
        exact absurd hq.2 h
    · intro _
      exact ⟨list.Model.Items_SetItems_nil _, rfl⟩
    · intro _
      exact ⟨hnone, list.Model.Items_SetItems_nil _, rfl⟩

/-- C17, amended, on the input `ab` followed by a blank, and by `c`. -/
theorem text_edit_debounce_witness :
    (sessionAb.Update lineInput (.KeyMsg (.other " "))).m.showSuggestions = false ∧
    Cmd.getSuggestions "abc" ∈ (sessionAb.Update lineInput (.KeyMsg (.other "c"))).cmds :=
  ⟨((text_edit_debounce lineInput sessionAb " ").2.2.2.1 (by decide)).2,
   ((text_edit_debounce lineInput sessionAb "c").2.2.1 "abc").2 ⟨by decide, by decide⟩⟩

/-! ## Theorems: the selection under `up` and `down` -/

/-- Both branches of `updatePagination` set the page count for at least one
item. -/
theorem paginator.Model.SetTotalPages_of_pos (pg : paginator.Model) (n : Int) (hn : 1 ≤ n) :
    pg.SetTotalPages n =
      { pg with TotalPages := if n.tmod pg.PerPage > 0 then n.tdiv pg.PerPage + 1
                              else n.tdiv pg.PerPage } := by
  have : ¬ n < 1 := by omega
  simp only [paginator.Model.SetTotalPages, this, if_false]

/-- A well-formed list is paged. -/
theorem list.Model.paged_of_wf (l : list.Model) (h : l.wf) : l.paged := by
  obtain ⟨items, cursor, ⟨Page, PerPage, TotalPages⟩, width, inf⟩ := l
  simp only [list.Model.wf, paginator.Model.ItemsOnPage, paginator.Model.GetSliceBounds] at h
  obtain ⟨h1, h2, h3, h4, h5, h6, h7⟩ := h
  have e1 : (TotalPages - 1) * PerPage = TotalPages * PerPage - PerPage := by ring
  have e3 : Page * PerPage ≤ (TotalPages - 1) * PerPage :=
    mul_le_mul_of_nonneg_right (by omega) (by omega)
  have e4 : 0 ≤ Page * PerPage := mul_nonneg h2 (by omega)
  have hn : ¬ ((items.length : Int) < 1) := by
    intro hlt
    omega
  simp only [hn, if_false] at h7
  have hmax : max (items.length : Int) 1 = items.length := max_eq_left (by omega)
  simp only [list.Model.paged, hmax]
  refine ⟨h1, h2, h3, h4, h5, h6, ?_⟩
  rw [min_def] at h7
  split_ifs at h7 <;> omega

/-- A paged list whose index is an index of the items is well-formed. -/
theorem list.Model.wf_of_paged (l : list.Model) (h : l.paged)
    (hlt : l.Index < (l.items.length : Int)) : l.wf := by
  obtain ⟨items, cursor, ⟨Page, PerPage, TotalPages⟩, width, inf⟩ := l
  simp only [list.Model.paged] at h
  obtain ⟨h1, h2, h3, h4, h5, h6, h7⟩ := h
  simp only [list.Model.Index] at hlt
  have e4 : 0 ≤ Page * PerPage := mul_nonneg h2 (by omega)
  have hn : ¬ ((items.length : Int) < 1) := by
    intro hlt'
    omega
  have hmax : max (items.length : Int) 1 = items.length := max_eq_left (by omega)
  rw [hmax] at h4 h5
  simp only [list.Model.wf, paginator.Model.ItemsOnPage, paginator.Model.GetSliceBounds, hn,
    if_false]
  refine ⟨h1, h2, h3, h4, h5, h6, ?_⟩
  rw [min_def]
  split_ifs <;> omega

/-- A paged list with at least one item fits. -/
theorem list.Model.fits_of_paged (l : list.Model) (h : l.paged) (hne : l.items ≠ []) :
    l.fits := by
  have hlen : (l.items.length : Int) ≥ 1 := by
    cases hl : l.items with
    | nil => exact absurd hl hne
    | cons a as => simp
  have hmax : max (l.items.length : Int) 1 = l.items.length := max_eq_left hlen
  obtain ⟨h1, h2, h3, h4, h5, h6, -⟩ := h
  rw [hmax] at h4 h5
  exact ⟨h1, h2, h3, h4, h5, h6⟩

/-- The bounds step makes a fitting list well-formed. -/
theorem list.Model.wf_keepInBounds (l : list.Model) (h : l.fits) :
    l.keepInBounds.wf ∧ l.keepInBounds.items = l.items ∧
      l.keepInBounds.InfiniteScrolling = l.InfiniteScrolling := by
  obtain ⟨items, cursor, ⟨Page, PerPage, TotalPages⟩, width, inf⟩ := l
  simp only [list.Model.fits] at h
  obtain ⟨h1, h2, h3, h4, h5, h6⟩ := h
  have e1 : (TotalPages - 1) * PerPage = TotalPages * PerPage - PerPage := by ring
  have e3 : Page * PerPage ≤ (TotalPages - 1) * PerPage :=
    mul_le_mul_of_nonneg_right (by omega) (by omega)
  have e4 : 0 ≤ Page * PerPage := mul_nonneg h2 (by omega)
  have hn : ¬ ((items.length : Int) < 1) := by omega
  have hiop : paginator.Model.ItemsOnPage ⟨Page, PerPage, TotalPages⟩ (items.length : Int)
      = min (Page * PerPage + PerPage) (items.length : Int) - Page * PerPage := by
    simp only [paginator.Model.ItemsOnPage, paginator.Model.GetSliceBounds, hn, if_false]
  have hpos : 1 ≤ min (Page * PerPage + PerPage) (items.length : Int) - Page * PerPage := by
    rw [min_def]
    split_ifs <;> omega
  simp only [list.Model.keepInBounds, list.Model.VisibleItems, hiop]
  generalize min (Page * PerPage + PerPage) (items.length : Int) - Page * PerPage = k at *
  by_cases hc : cursor > k - 1
  · rw [if_pos hc, max_eq_right (by omega)]
    refine ⟨⟨h1, h2, h3, h4, h5, by show 0 ≤ k - 1; omega, ?_⟩, rfl, rfl⟩
    show k - 1 < paginator.Model.ItemsOnPage ⟨Page, PerPage, TotalPages⟩ (items.length : Int)
    rw [hiop]
    omega
  · rw [if_neg hc]
    refine ⟨⟨h1, h2, h3, h4, h5, h6, ?_⟩, rfl, rfl⟩
    show cursor < paginator.Model.ItemsOnPage ⟨Page, PerPage, TotalPages⟩ (items.length : Int)
    rw [hiop]
    omega

/-- The method `CursorUp` keeps a paged list with at least one item fitting. -/
theorem list.Model.fits_CursorUp (l : list.Model) (h : l.paged) (hne : l.items ≠ []) :
    l.CursorUp.fits ∧ l.CursorUp.items = l.items ∧
      l.CursorUp.InfiniteScrolling = l.InfiniteScrolling := by
  have hf := l.fits_of_paged h hne
  obtain ⟨items, cursor, ⟨Page, PerPage, TotalPages⟩, width, inf⟩ := l
  simp only [list.Model.fits] at hf
  obtain ⟨h1, h2, h3, h4, h5, h6⟩ := hf
  have e1 : (TotalPages - 1) * PerPage = TotalPages * PerPage - PerPage := by ring
  have e2 : (Page - 1) * PerPage = Page * PerPage - PerPage := by ring
  have e3 : Page * PerPage ≤ (TotalPages - 1) * PerPage :=
    mul_le_mul_of_nonneg_right (by omega) (by omega)
  have e4 : 0 ≤ Page * PerPage := mul_nonneg h2 (by omega)
  have hn : ¬ ((items.length : Int) < 1) := by omega
  simp only [list.Model.CursorUp, list.Model.fits, paginator.Model.ItemsOnPage,
    paginator.Model.GetSliceBounds, list.Model.VisibleItems, paginator.Model.PrevPage, hn,
    if_false, min_def]
  split_ifs <;> refine ⟨⟨?_, ?_, ?_, ?_, ?_, ?_⟩, ?_, ?_⟩ <;> (try dsimp only) <;> omega

/-- The method `CursorDown` keeps a paged list with at least one item
fitting. -/
theorem list.Model.fits_CursorDown (l : list.Model) (h : l.paged) (hne : l.items ≠ []) :
    l.CursorDown.fits ∧ l.CursorDown.items = l.items ∧
      l.CursorDown.InfiniteScrolling = l.InfiniteScrolling := by
  have hf := l.fits_of_paged h hne
  obtain ⟨items, cursor, ⟨Page, PerPage, TotalPages⟩, width, inf⟩ := l
  simp only [list.Model.fits] at hf
  obtain ⟨h1, h2, h3, h4, h5, h6⟩ := hf
  have e1 : (TotalPages - 1) * PerPage = TotalPages * PerPage - PerPage := by ring
  have e2 : (Page + 1) * PerPage = Page * PerPage + PerPage := by ring
  have e3 : Page * PerPage ≤ (TotalPages - 1) * PerPage :=
    mul_le_mul_of_nonneg_right (by omega) (by omega)
  have e4 : 0 ≤ Page * PerPage := mul_nonneg h2 (by omega)
  have hn : ¬ ((items.length : Int) < 1) := by omega
  simp only [list.Model.CursorDown, list.Model.fits, paginator.Model.ItemsOnPage,
    paginator.Model.GetSliceBounds, list.Model.VisibleItems, paginator.Model.NextPage,
    paginator.Model.OnLastPage, hn, if_false, min_def]
  split_ifs <;> refine ⟨⟨?_, ?_, ?_, ?_, ?_, ?_⟩, ?_, ?_⟩ <;> (try dsimp only) <;>
    first | omega | trivial | rfl | (simp_all; omega)

/-- On a paged list with at least one item, `up` and `down` make the list
well-formed and leave its items alone. -/
theorem list.Model.wf_Update_of_paged (l : list.Model) (msg : KeyMsg) (h : l.paged)
    (hne : l.items ≠ []) :
    (l.Update msg).wf ∧ (l.Update msg).items = l.items ∧
      (l.Update msg).InfiniteScrolling = l.InfiniteScrolling := by
  have hi : l.items.length ≠ 0 := by
    intro h0
    exact hne (List.length_eq_zero.mp h0)
  have hk : (l.handleKey msg).fits ∧ (l.handleKey msg).items = l.items ∧
      (l.handleKey msg).InfiniteScrolling = l.InfiniteScrolling := by
    cases msg with
    | up =>
      simp only [list.Model.handleKey]
      rw [if_pos hi]
      exact l.fits_CursorUp h hne
    | down =>
      simp only [list.Model.handleKey]
      rw [if_pos hi]
      exact l.fits_CursorDown h hne
    | ctrlC => exact ⟨l.fits_of_paged h hne, rfl, rfl⟩
    | enter => exact ⟨l.fits_of_paged h hne, rfl, rfl⟩
    | tab => exact ⟨l.fits_of_paged h hne, rfl, rfl⟩
    | other key => exact ⟨l.fits_of_paged h hne, rfl, rfl⟩
  have hb := (l.handleKey msg).wf_keepInBounds hk.1
  simp only [list.Model.Update]
  exact ⟨hb.1, hb.2.1.trans hk.2.1, hb.2.2.trans hk.2.2⟩

/-- The method `Update` of the list keeps a list paged and leaves its items
and the scrolling switch alone. -/
theorem list.Model.paged_Update (l : list.Model) (msg : KeyMsg) (h : l.paged) :
    (l.Update msg).paged ∧ (l.Update msg).items = l.items ∧
      (l.Update msg).InfiniteScrolling = l.InfiniteScrolling := by
  by_cases hne : l.items = []
  · have hk : l.handleKey msg = l := by
      cases msg <;> simp [list.Model.handleKey, hne]
    simp only [list.Model.Update, hk]
    obtain ⟨items, cursor, ⟨Page, PerPage, TotalPages⟩, width, inf⟩ := l
    simp only at hne
    subst hne
    simp only [list.Model.paged, List.length_nil, Nat.cast_zero] at h
    obtain ⟨h1, h2, h3, h4, h5, h6, h7⟩ := h
    have hiop : paginator.Model.ItemsOnPage ⟨Page, PerPage, TotalPages⟩ ((0 : Nat) : Int) = 0 := by
      simp [paginator.Model.ItemsOnPage]
    have hc : cursor > (0 : Int) - 1 := by omega
    simp only [list.Model.keepInBounds, list.Model.VisibleItems, List.length_nil, hiop]
    rw [if_pos hc]
    simp only [list.Model.paged, List.length_nil, Nat.cast_zero]
    refine ⟨⟨h1, h2, h3, h4, h5, ?_, ?_⟩, trivial, trivial⟩
    · simp
    · have : max (0 : Int) (0 - 1) = 0 := by decide
      rw [this]
      omega
  · have hw := l.wf_Update_of_paged msg h hne
    exact ⟨list.Model.paged_of_wf _ hw.1, hw.2.1, hw.2.2⟩

/-- The method `updatePagination` makes a list paged, when the page size is
positive and the index is not negative; items and scrolling switch stay. -/
theorem list.Model.paged_updatePagination (l : list.Model) (hP : 1 ≤ l.Paginator.PerPage)
    (h0 : 0 ≤ l.Index) :
    l.updatePagination.paged ∧ l.updatePagination.items = l.items ∧
      l.updatePagination.InfiniteScrolling = l.InfiniteScrolling := by
  obtain ⟨items, cursor, ⟨Page, PerPage, TotalPages⟩, width, inf⟩ := l
  simp only [list.Model.Index] at h0
  simp only at hP
  obtain ⟨N, hN⟩ : ∃ N : Int, N = max (items.length : Int) 1 := ⟨_, rfl⟩
  have hN1 : 1 ≤ N := by
    rw [hN]
    exact le_max_right _ _
  have hset : (if (items.length : Int) < 1
        then paginator.Model.SetTotalPages ⟨Page, PerPage, TotalPages⟩ 1
        else paginator.Model.SetTotalPages ⟨Page, PerPage, TotalPages⟩ (items.length : Int))
      = paginator.Model.SetTotalPages ⟨Page, PerPage, TotalPages⟩ N := by
    by_cases hlt : (items.length : Int) < 1
    · rw [if_pos hlt, hN, max_eq_right (by omega)]
    · rw [if_neg hlt, hN, max_eq_left (by omega)]
  simp only [list.Model.updatePagination, list.Model.Index, list.Model.VisibleItems, hset,
    paginator.Model.SetTotalPages_of_pos _ N hN1, list.Model.paged, ← hN]
  have t1 : N.tdiv PerPage = N / PerPage := Int.tdiv_eq_ediv (by omega) (by omega)
  have t2 : N.tmod PerPage = N % PerPage := Int.tmod_eq_emod (by omega) (by omega)
  have t3 : (Page * PerPage + cursor).tdiv PerPage = (Page * PerPage + cursor) / PerPage :=
    Int.tdiv_eq_ediv h0 (by omega)
  have t4 : (Page * PerPage + cursor).tmod PerPage = (Page * PerPage + cursor) % PerPage :=
    Int.tmod_eq_emod h0 (by omega)
  simp only [t1, t2, t3, t4]
  clear t1 t2 t3 t4
  have f1 := Int.ediv_add_emod N PerPage
  have f2 := Int.emod_nonneg N (show PerPage ≠ 0 by omega)
  have f3 := Int.emod_lt_of_pos N (show 0 < PerPage by omega)
  have g2 := Int.emod_nonneg (Page * PerPage + cursor) (show PerPage ≠ 0 by omega)
  have g3 := Int.emod_lt_of_pos (Page * PerPage + cursor) (show 0 < PerPage by omega)
  have f4 : 0 ≤ N / PerPage := Int.ediv_nonneg (by omega) (by omega)
  have g4 : 0 ≤ (Page * PerPage + cursor) / PerPage := Int.ediv_nonneg h0 (by omega)
  generalize N / PerPage = q at *
  generalize N % PerPage = r at *
  generalize (Page * PerPage + cursor) / PerPage = a at *
  generalize (Page * PerPage + cursor) % PerPage = b at *
  obtain ⟨T, hT⟩ : ∃ T, T = (if r > 0 then q + 1 else q) := ⟨_, rfl⟩
  simp only [← hT]
  have hTP : T * PerPage = PerPage * q + (if r > 0 then PerPage else 0) := by
    rw [hT]
    split_ifs <;> ring
  have hT1 : (T - 1) * PerPage = T * PerPage - PerPage := by ring
  have hbound : (T - 1) * PerPage < N ∧ N ≤ T * PerPage := by
    rw [hT1, hTP]
    split_ifs <;> omega
  have hTpos : 1 ≤ T := by
    by_contra hc
    have : T * PerPage ≤ 0 * PerPage := mul_le_mul_of_nonneg_right (by omega) (by omega)
    omega
  refine ⟨⟨hP, ?_, ?_, hbound.1, hbound.2, g2, g3⟩, trivial, trivial⟩
  · split_ifs
    · exact le_max_left _ _
    · exact g4
  · split_ifs with hge
    · rw [max_eq_right (by omega)]
      omega
    · omega

/-- A paged list has a positive page size and an index that is not
negative. -/
theorem list.Model.Index_nonneg_of_paged (l : list.Model) (h : l.paged) :
    1 ≤ l.Paginator.PerPage ∧ 0 ≤ l.Index := by
  obtain ⟨h1, h2, -, -, -, h6, -⟩ := h
  have e4 : 0 ≤ l.Paginator.Page * l.Paginator.PerPage := mul_nonneg h2 (by omega)
  simp only [list.Model.Index]
  exact ⟨h1, by omega⟩

/-- The method `SetItems` keeps a list paged. -/
theorem list.Model.paged_SetItems (l : list.Model) (i : List wordItem) (h : l.paged) :
    (l.SetItems i).paged ∧ (l.SetItems i).InfiniteScrolling = l.InfiniteScrolling := by
  have hp := l.Index_nonneg_of_paged h
  have := list.Model.paged_updatePagination { l with items := i } hp.1 hp.2
  exact ⟨this.1, this.2.2⟩

/-- The method `SetWidth` keeps a list paged and leaves its items alone. -/
theorem list.Model.paged_SetWidth (l : list.Model) (v : Int) (h : l.paged) :
    (l.SetWidth v).paged ∧ (l.SetWidth v).InfiniteScrolling = l.InfiniteScrolling ∧
      (l.SetWidth v).items = l.items := by
  have hp := l.Index_nonneg_of_paged h
  have := list.Model.paged_updatePagination { l with width := v } hp.1 hp.2
  exact ⟨this.1, this.2.2, this.2.1⟩

/-- The text input step keeps the list paged and the scrolling switch on. -/
theorem model.updateTextInput_paged {TI : Type} (ti : textinput TI) (m : model TI)
    (msg : KeyMsg) (h : m.suggestionsList.paged)
    (hinf : m.suggestionsList.InfiniteScrolling = true) :
    (m.updateTextInput ti msg).m.suggestionsList.paged ∧
    (m.updateTextInput ti msg).m.suggestionsList.InfiniteScrolling = true := by
  rw [model.updateTextInput_eq]
  split_ifs
  · exact ⟨h, hinf⟩
  · have := m.suggestionsList.paged_SetItems [] h
    exact ⟨this.1, this.2.trans hinf⟩

/-- Every message keeps the list paged and the scrolling switch on. -/
theorem model.Update_paged {TI : Type} (ti : textinput TI) (m : model TI) (msg : Msg)
    (h : m.suggestionsList.paged) (hinf : m.suggestionsList.InfiniteScrolling = true) :
    (m.Update ti msg).m.suggestionsList.paged ∧
    (m.Update ti msg).m.suggestionsList.InfiniteScrolling = true := by
  cases msg with
  | KeyMsg k =>
    cases k with
    | ctrlC => exact ⟨h, hinf⟩
    | enter =>
      rw [model.Update_enter]
      have hl := (m.acceptSelection_fields ti).2.2.2.2.1
      split_ifs
      · cases (m.acceptSelection ti).suggester
          (TrimSpace (ti.Value (m.acceptSelection ti).textInput)) with
        | ok r =>
          show (m.acceptSelection ti).suggestionsList.paged ∧
            (m.acceptSelection ti).suggestionsList.InfiniteScrolling = true
          rw [hl]
          exact ⟨h, hinf⟩
        | error e =>
          show (m.acceptSelection ti).suggestionsList.paged ∧
            (m.acceptSelection ti).suggestionsList.InfiniteScrolling = true
          rw [hl]
          exact ⟨h, hinf⟩
      · show (m.acceptSelection ti).suggestionsList.paged ∧
          (m.acceptSelection ti).suggestionsList.InfiniteScrolling = true
        rw [hl]
        exact ⟨h, hinf⟩
    | tab =>
      simp only [model.Update]
      split_ifs
      · cases m.suggestionsList.SelectedItem with
        | some sel => exact ⟨h, hinf⟩
        | none => exact m.updateTextInput_paged ti .tab h hinf
      · exact m.updateTextInput_paged ti .tab h hinf
    | up =>
      simp only [model.Update]
      split_ifs
      · have := m.suggestionsList.paged_Update .up h
        exact ⟨this.1, this.2.2.trans hinf⟩
      · exact m.updateTextInput_paged ti .up h hinf
    | down =>
      simp only [model.Update]
      split_ifs
      · have := m.suggestionsList.paged_Update .down h
        exact ⟨this.1, this.2.2.trans hinf⟩
      · exact m.updateTextInput_paged ti .down h hinf
    | other key => exact m.updateTextInput_paged ti (.other key) h hinf
  | suggestionResponse words =>
    have := m.suggestionsList.paged_SetItems (words.map wordItem.ofResponse) h
    exact ⟨this.1, this.2.trans hinf⟩
  | WindowSizeMsg w hgt =>
    have := m.suggestionsList.paged_SetWidth (w - 4) h
    exact ⟨this.1, this.2.1.trans hinf⟩
  | other => exact ⟨h, hinf⟩

/-- In every state reachable from `initialModel` (with a positive page size)
the list is paged and the scrolling switch is on. -/
theorem model.run_paged {TI : Type} (ti : textinput TI) (msgs : List Msg) :
    ∀ m : model TI, m.suggestionsList.paged → m.suggestionsList.InfiniteScrolling = true →
      (m.run ti msgs).suggestionsList.paged ∧
      (m.run ti msgs).suggestionsList.InfiniteScrolling = true := by
  induction msgs with
  | nil =>
    intro m h hinf
    exact ⟨h, hinf⟩
  | cons msg msgs ih =>
    intro m h hinf
    have hstep := m.Update_paged ti msg h hinf
    simp only [model.run, List.foldl_cons]
    exact ih (m.Update ti msg).m hstep.1 hstep.2

/-- The list of `initialModel` is paged for a positive page size, with the
scrolling switch on. -/
theorem initialModel_paged {TI : Type} (ti : textinput TI) (perPage : Int) (hP : 1 ≤ perPage)
    (title description : String) (suggester : wordSuggester) :
    (initialModel ti perPage title description suggester).suggestionsList.paged ∧
    (initialModel ti perPage title description suggester).suggestionsList.InfiniteScrolling
      = true := by
  refine ⟨?_, rfl⟩
  simp only [initialModel, list.New, list.Model.paged, List.length_nil, Nat.cast_zero]
  have : max (0 : Int) 1 = 1 := by decide
  rw [this]
  omega

/-- A non-empty run of `up` and `down` keys on a paged, non-empty list that is
shown makes the list well-formed and keeps its items. -/
theorem model.run_up_down_of_paged {TI : Type} (ti : textinput TI) (m : model TI)
    (ks : List KeyMsg) (hks : ∀ k ∈ ks, k = .up ∨ k = .down) (hnil : ks ≠ [])
    (hshow : m.showSuggestions = true) (hne : m.suggestionsList.items ≠ [])
    (hp : m.suggestionsList.paged) :
    (m.run ti (ks.map Msg.KeyMsg)).suggestionsList.wf ∧
    (m.run ti (ks.map Msg.KeyMsg)).suggestionsList.items = m.suggestionsList.items := by
  cases ks with
  | nil => exact absurd rfl hnil
  | cons k ks =>
    have hk := hks k (List.mem_cons_self k ks)
    have hstep := m.Update_up_down ti k hk hshow
    have hw := m.suggestionsList.wf_Update_of_paged k hp hne
    have hrun : m.run ti ((k :: ks).map Msg.KeyMsg)
        = ({ m with suggestionsList := m.suggestionsList.Update k } : model TI).run ti
            (ks.map Msg.KeyMsg) := by
      simp only [model.run, List.map_cons, List.foldl_cons, hstep]
    rw [hrun]
    have := model.run_up_down ti ks (fun k' hk' => hks k' (List.mem_cons_of_mem k hk'))
      { m with suggestionsList := m.suggestionsList.Update k } hshow hw.1
    exact ⟨this.2.1, this.2.2.trans hw.2.1⟩

/-- C10, the claim as stated fails. With two suggestions shown and the first
one selected, the key `up` selects the last one (index 1), and from there the
key `down` selects the first one again. Besides, the selected index can lie
past the list before any key: after two suggestions, `down` and a response
with one word, the list has one item and index 1; one `up` brings it back to
index 0. -/
theorem up_at_first_wraps_to_last :
    sessionTwoWords.showSuggestions = true ∧
    sessionTwoWords.suggestionsList.Items.length = 2 ∧
    sessionTwoWords.suggestionsList.Index = 0 ∧
    (sessionTwoWords.Update lineInput (.KeyMsg .up)).m.suggestionsList.Index = 1 ∧
    (sessionTwoWords.run lineInput [.KeyMsg .up, .KeyMsg .down]).suggestionsList.Index = 0 ∧
    sessionShorterResponse.showSuggestions = true ∧
    sessionShorterResponse.suggestionsList.Items.length = 1 ∧
    sessionShorterResponse.suggestionsList.Index = 1 ∧
    (sessionShorterResponse.Update lineInput (.KeyMsg .up)).m.suggestionsList.Index = 0 := by
  decide

/-- C10, amended. For every session state with `showSuggestions` true and a
non-empty suggestion list whose paginator is consistent with its items
(`paged`; `InfiniteScrolling` on, as `initialModel` sets it): after any
non-empty sequence of `up` and `down` keys the list holds the same items and
the selected index lies in `[0, length(suggestions) - 1]`; if the index was
in that range before, this holds after the empty sequence too; the key `up`
at index 0 moves the selection to the last index, and the key `down` at the
last index moves it to index 0. Every state reachable from `initialModel`
with a positive page size has a paged list with `InfiniteScrolling` on. -/
theorem selection_in_range_and_wraps {TI : Type} (ti : textinput TI) (m : model TI)
    (hshow : m.showSuggestions = true) (hne : m.suggestionsList.Items ≠ [])
    (hp : m.suggestionsList.paged) (hinf : m.suggestionsList.InfiniteScrolling = true) :
    (∀ ks : List KeyMsg, (∀ k ∈ ks, k = .up ∨ k = .down) → ks ≠ [] →
      (m.run ti (ks.map Msg.KeyMsg)).suggestionsList.Items = m.suggestionsList.Items ∧
      0 ≤ (m.run ti (ks.map Msg.KeyMsg)).suggestionsList.Index ∧
      (m.run ti (ks.map Msg.KeyMsg)).suggestionsList.Index
        ≤ (m.suggestionsList.Items.length : Int) - 1) ∧
    (m.suggestionsList.Index ≤ (m.suggestionsList.Items.length : Int) - 1 →
      ∀ ks : List KeyMsg, (∀ k ∈ ks, k = .up ∨ k = .down) →
      (m.run ti (ks.map Msg.KeyMsg)).suggestionsList.Items = m.suggestionsList.Items ∧
      0 ≤ (m.run ti (ks.map Msg.KeyMsg)).suggestionsList.Index ∧
      (m.run ti (ks.map Msg.KeyMsg)).suggestionsList.Index
        ≤ (m.suggestionsList.Items.length : Int) - 1) ∧
    (m.suggestionsList.Index = 0 →
      (m.Update ti (.KeyMsg .up)).m.suggestionsList.Index
        = (m.suggestionsList.Items.length : Int) - 1) ∧
    (m.suggestionsList.Index = (m.suggestionsList.Items.length : Int) - 1 →
      (m.Update ti (.KeyMsg .down)).m.suggestionsList.Index = 0) ∧
    (∀ (perPage : Int) (title description : String) (suggester : wordSuggester)
        (msgs : List Msg), 1 ≤ perPage →
      ((initialModel ti perPage title description suggester).run ti msgs).suggestionsList.paged ∧
      ((initialModel ti perPage title description suggester).run ti
        msgs).suggestionsList.InfiniteScrolling = true) := by
  have hne' : m.suggestionsList.items ≠ [] := hne
  have hwf_of : m.suggestionsList.Index ≤ (m.suggestionsList.Items.length : Int) - 1 →
      m.suggestionsList.wf := by
    intro hle
    refine m.suggestionsList.wf_of_paged hp ?_
    simp only [list.Model.Items] at hle
    omega
  refine ⟨?_, ?_, ?_, ?_, ?_⟩
  · intro ks hks hnil
    obtain ⟨hw, hitems⟩ := m.run_up_down_of_paged ti ks hks hnil hshow hne' hp
    have hr := list.Model.Index_range _ hw
    simp only [list.Model.Items]
    rw [hitems] at hr
    exact ⟨hitems, hr.1, hr.2⟩
  · intro hle ks hks
    obtain ⟨_, hw, hitems⟩ := model.run_up_down ti ks hks m hshow (hwf_of hle)
    have hr := list.Model.Index_range _ hw
    simp only [list.Model.Items]
    rw [hitems] at hr
    exact ⟨hitems, hr.1, hr.2⟩
  · intro h0
    have hlen : (m.suggestionsList.Items.length : Int) ≥ 1 := by
      simp only [list.Model.Items]
      cases hl : m.suggestionsList.items with
      | nil => exact absurd hl hne'
      | cons a as => simp
    have hw := hwf_of (by omega)
    rw [m.Update_up_down ti .up (Or.inl rfl) hshow]
    exact m.suggestionsList.Update_up_at_first hw hinf h0
  · intro hlast
    have hw := hwf_of (by omega)
    rw [m.Update_up_down ti .down (Or.inr rfl) hshow]
    exact m.suggestionsList.Update_down_at_last hw hinf hlast
  · intro perPage title description suggester msgs hP
    obtain ⟨h1, h2⟩ := initialModel_paged ti perPage hP title description suggester
    exact model.run_paged ti msgs _ h1 h2

/-- C10, amended, on the session whose list has one item and index 1 (after
two suggestions, `down`, and a response with one word): one `up` brings the
index into range; and on the session showing two suggestions: `up`, `up`,
`down` leave the index in range, and `up` at index 0 selects index 1. -/
theorem selection_in_range_and_wraps_witness :
    sessionShorterResponse.suggestionsList.paged ∧
    (sessionShorterResponse.run lineInput ([KeyMsg.up].map Msg.KeyMsg)).suggestionsList.Index
      ≤ (sessionShorterResponse.suggestionsList.Items.length : Int) - 1 ∧
    (sessionTwoWords.run lineInput
        ([KeyMsg.up, KeyMsg.up, KeyMsg.down].map Msg.KeyMsg)).suggestionsList.Index
      ≤ (sessionTwoWords.suggestionsList.Items.length : Int) - 1 ∧
    (sessionTwoWords.Update lineInput (.KeyMsg .up)).m.suggestionsList.Index
      = (sessionTwoWords.suggestionsList.Items.length : Int) - 1 :=
  ⟨by decide,
   ((selection_in_range_and_wraps lineInput sessionShorterResponse (by decide) (by decide)
      (by decide) (by decide)).1 [KeyMsg.up] (by decide) (by decide)).2.2,
   ((selection_in_range_and_wraps lineInput sessionTwoWords (by decide) (by decide) (by decide)
      (by decide)).1 [KeyMsg.up, KeyMsg.up, KeyMsg.down] (by decide) (by decide)).2.2,
   (selection_in_range_and_wraps lineInput sessionTwoWords (by decide) (by decide) (by decide)
      (by decide)).2.2.1 (by decide)⟩

end Phoenician
